import Mathlib

/-!
Shallow embedding of the rapport-builder aggregation pipeline
(`src/unnamed/part_000`, a Next.js route handler).

Text is modelled as `List Char`; the JS string primitives used by the
source (`replace(/\s+/g, " ")`, `trim`, `split`, `slice`, `toLowerCase`,
`indexOf`, `startsWith`, `includes`) are given executable translations
below.  Network calls are modelled by oracle parameters producing the
same observable shapes the code destructures.
-/

set_option maxRecDepth 100000

namespace RapportBuilder

/-- Character list standing for a JS string. -/
abbrev LC := List Char

/-- Convert a Lean string literal to the `List Char` representation. -/
def str (s : String) : LC := s.data

/-- Whitespace test modelling the `\s` character class used by
`replace(/\s+/g, " ")` and `String.prototype.trim` (ASCII whitespace
plus NBSP; the source never manipulates the more exotic members). -/
def isWS (c : Char) : Bool :=
  c = ' ' || c = '\t' || c = '\n' || c = '\r' || c = '\x0b' || c = '\x0c' || c = ' '

/-- JS `toLowerCase`, restricted to the ASCII range the pipeline compares. -/
def lowerLC (l : LC) : LC := l.map Char.toLower

/-- Drop leading whitespace (half of JS `trim`). -/
def trimL (l : LC) : LC := l.dropWhile (fun c => isWS c)

/-- Drop trailing whitespace (other half of JS `trim`). -/
def trimR (l : LC) : LC := ((l.reverse).dropWhile (fun c => isWS c)).reverse

/-- JS `String.prototype.trim`. -/
def jsTrim (l : LC) : LC := trimR (trimL l)

/-- `text.replace(/\s+/g, " ")`: every maximal whitespace run becomes one
space. -/
def squeeze : LC → LC
  | [] => []
  | [c] => [if isWS c then ' ' else c]
  | c :: d :: rest =>
    if isWS c && isWS d then squeeze (d :: rest)
    else (if isWS c then ' ' else c) :: squeeze (d :: rest)

/-- `normalizeBlurb` (line 392): collapse whitespace runs, then trim. -/
def normalizeBlurb (l : LC) : LC := jsTrim (squeeze l)

/-- Terminal-punctuation test `/[.!?]$/`. -/
def endsPunct (l : LC) : Bool :=
  match l.getLast? with
  | some c => c = '.' || c = '!' || c = '?'
  | none => false

/-- `ensureSentence` (lines 416-421): normalize, clip to 217 chars plus an
ellipsis when longer than 220, and append a period when terminal
punctuation is missing. -/
def ensureSentence (text : LC) : LC :=
  let trimmed := normalizeBlurb text
  if trimmed = [] then []
  else
    let clipped := if 220 < trimmed.length then jsTrim (trimmed.take 217) ++ ['…'] else trimmed
    if endsPunct clipped then clipped else clipped ++ ['.']

example : normalizeBlurb (str "  a \t b  ") = str "a b" := by decide
example : ensureSentence (str " hi   there ") = str "hi there." := by decide
example : ensureSentence (str "Done!") = str "Done!" := by decide
example : (ensureSentence (List.replicate 220 'a')).length = 221 := by decide
example : (ensureSentence (List.replicate 221 'a')).length = 219 := by decide

/-- JS `split(sep)` for a one-character separator (used with `"|"` and in
the line splitter).  Always returns at least one chunk. -/
def splitOnChar (sep : Char) : LC → List LC
  | [] => [[]]
  | c :: rest =>
    if c = sep then [] :: splitOnChar sep rest
    else
      match splitOnChar sep rest with
      | [] => [[c]]
      | h :: t => (c :: h) :: t

/-- Remove one trailing carriage return from a chunk. -/
def dropTrailingCR (l : LC) : LC :=
  if l.getLast? = some '\r' then l.dropLast else l

/-- JS `split(/\r?\n/)`: split at every newline, consuming one carriage
return immediately before it. -/
def splitLines (l : LC) : List LC := (splitOnChar '\n' l).map dropTrailingCR

/-- JS `String.prototype.replace` with a string pattern: replace the first
occurrence only. -/
def replaceFirst : LC → LC → LC → LC
  | [], _, _ => []
  | c :: rest, pat, sub =>
    if pat.isPrefixOf (c :: rest) then sub ++ (c :: rest).drop pat.length
    else c :: replaceFirst rest pat sub

example : splitOnChar '|' (str "a|b||c") = [str "a", str "b", str "", str "c"] := by decide
example : replaceFirst (str "x {city} y") (str "{city}") (str "Tempe") = str "x Tempe y" := by decide

/-! ### Snippet Source (DuckDuckGo query, lines 396-484)

The upstream response is modelled by the decision points the source
destructures: transport failure, HTTP status flag, raw body text, JSON
parse success, and the parsed shape.  JS truthiness of an
optional-string field (`undefined`, missing, or `""` are all falsy) is
`optTruthy`. -/

/-- Truthiness of an optional string field. -/
def optTruthy : Option LC → Bool
  | some l => l ≠ []
  | none => false

/-- One `Infobox.content` entry: `{label?, value?}`. -/
structure InfoboxItem where
  label : Option LC
  value : Option LC
deriving DecidableEq

/-- One `RelatedTopics` entry.  `text = some s` models a present
string-valued `Text` key; `topics` models a present array-valued
`Topics` key whose entries have an optional `Text`. -/
structure RelatedItem where
  text : Option LC
  topics : Option (List (Option LC))
deriving DecidableEq

/-- Parsed DuckDuckGo payload shape (type `DuckDuckGoResponse`), with
`none` for absent fields. -/
structure DDGData where
  heading : Option LC
  abstractText : Option LC
  abstract : Option LC
  answer : Option LC
  infobox : Option (List InfoboxItem)
  relatedTopics : Option (List RelatedItem)
deriving DecidableEq

/-- Outcome of the snippet fetch: a thrown transport error (including the
timeout abort), or an HTTP response with its `ok` flag, raw body text,
and JSON parse result (`none` when `JSON.parse` throws). -/
inductive DDGUpstream where
  | transportError : DDGUpstream
  | http (ok : Bool) (bodyText : LC) (parsed : Option DDGData) : DDGUpstream
deriving DecidableEq

/-- `extractRelatedTopics` (lines 396-414). -/
def extractRelatedTopics (d : DDGData) : List LC :=
  let related := d.relatedTopics.getD []
  related.foldl
    (fun acc item =>
      match item.text with
      | some t =>
        let blurb := normalizeBlurb t
        if blurb ≠ [] then acc ++ [blurb] else acc
      | none =>
        match item.topics with
        | some nested =>
          acc ++ (nested.foldl
            (fun acc2 nt =>
              match nt with
              | some t =>
                if t ≠ [] then
                  let blurb := normalizeBlurb t
                  if blurb ≠ [] then acc2 ++ [blurb] else acc2
                else acc2
              | none => acc2) [])
        | none => acc)
    []

/-- Candidate extraction in source field order (lines 452-466): heading,
abstract text, abstract, answer, info-box entries, related topics. -/
def ddgCandidates (d : DDGData) : List LC :=
  (if optTruthy d.heading then [d.heading.getD []] else []) ++
  (if optTruthy d.abstractText then [d.abstractText.getD []] else []) ++
  (if optTruthy d.abstract then [d.abstract.getD []] else []) ++
  (if optTruthy d.answer then [d.answer.getD []] else []) ++
  (match d.infobox with
   | some content =>
     if content.length ≠ 0 then
       content.foldl
         (fun acc item =>
           if optTruthy item.value then
             acc ++ [(match item.label with
                      | some lb => if lb ≠ [] then lb ++ str ": " else []
                      | none => []) ++ item.value.getD []]
           else acc) []
     else []
   | none => []) ++
  extractRelatedTopics d

/-- The dedup-and-cap loop over candidates (lines 468-478): normalize each
candidate with `ensureSentence`, drop empties, skip case-insensitive
duplicates, stop once `limit` sentences are kept (checked after each
push). -/
def collectSnippets (limit : Nat) (seen : List LC) (acc : List LC) : List LC → List LC
  | [] => acc
  | cand :: rest =>
    let sentence := ensureSentence cand
    if sentence = [] then collectSnippets limit seen acc rest
    else
      let key := lowerLC sentence
      if key ∈ seen then collectSnippets limit seen acc rest
      else if limit ≤ (acc ++ [sentence]).length then acc ++ [sentence]
      else collectSnippets limit (seen ++ [key]) (acc ++ [sentence]) rest

/-- `queryDuckDuckGoSnippets` (lines 423-484) given the upstream outcome:
every failure path returns the empty list; a parsed payload feeds the
candidate collector. -/
def queryDuckDuckGoSnippets (u : DDGUpstream) (limit : Nat) : List LC :=
  match u with
  | .transportError => []
  | .http ok bodyText parsed =>
    if !ok then []
    else if bodyText = [] then []
    else
      match parsed with
      | none => []
      | some d => collectSnippets limit [] [] (ddgCandidates d)

/-- Candidate list of an upstream outcome (empty on every failure path);
used to state the ordering part of the snippet contract. -/
def ddgUpstreamCandidates (u : DDGUpstream) : List LC :=
  match u with
  | .transportError => []
  | .http ok bodyText parsed =>
    if !ok then []
    else if bodyText = [] then []
    else
      match parsed with
      | none => []
      | some d => ddgCandidates d

example :
    queryDuckDuckGoSnippets
      (.http true (str "x")
        (some ⟨some (str "Tempe"), some (str " great  town "), some (str "Great town"), none,
               some [⟨some (str "Motto"), some (str "Rising")⟩], none⟩)) 3
      = [str "Tempe.", str "great town.", str "Motto: Rising."] := by decide

example : queryDuckDuckGoSnippets (.http false (str "x") none) 3 = [] := by decide

/-! ### Strategic Context Aggregator (lines 28-80, 146-309, 486-575) -/

/-- The 18 fixed bucket keys (type `ContextBucketKey`). -/
inductive BucketKey where
  | state_identity | state_trends | seasonal_rhythms | community_traditions
  | iconic_destinations | outdoor_showstoppers | neighborhood_archetypes
  | home_projects | economic_momentum | population_growth | desirability_factors
  | sports_heat | food_and_drink | civic_culture | housing_signals
  | life_stage_notes | positive_news | emotional_connectors
deriving DecidableEq

/-- One entry of the query table (type `StrategicQueryConfig`); `limit` is
the per-bucket cap, present on every entry of the table. -/
structure StrategicQueryConfig where
  key : BucketKey
  templates : List LC
  limit : Nat
deriving DecidableEq

/-- `STRATEGIC_QUERIES` (lines 146-309), transcribed verbatim. -/
def STRATEGIC_QUERIES : List StrategicQueryConfig := [
  ⟨.state_identity, [
    str "How do residents describe the character of {state}? Mention pride points or what makes living there special.",
    str "Signature cultural traits or statewide identity markers people associate with {state}.",
    str "What do long-time residents love telling newcomers about {state}?"], 2⟩,
  ⟨.state_trends, [
    str "What lifestyle or outdoor trends are residents across {state} excited about lately? Share vivid activities locals mention.",
    str "Popular weekend adventures {state} homeowners rave about lately.",
    str "Seasonal highlights or statewide events people across {state} keep talking about."], 3⟩,
  ⟨.seasonal_rhythms, [
    str "What seasonal rhythms define life in {state}? Mention weather extremes and how locals adapt.",
    str "Traditions or rituals people in {state} follow as seasons shift (snowbirds, monsoon storms, summer nights).",
    str "How do homeowners in {state} prep their homes for upcoming seasons?"], 3⟩,
  ⟨.community_traditions, [
    str "Signature annual events, markets, or traditions in {city}, {state} that locals celebrate.",
    str "Upcoming community events or festivals residents in {city}, {state} are buzzing about.",
    str "Family-friendly or foodie-focused traditions unique to {city}, {state}."], 3⟩,
  ⟨.iconic_destinations, [
    str "Iconic attractions or major destinations in or near {city}, {state} that locals brag about (theme parks, stadiums, landmarks).",
    str "Bucket-list spots around {city}, {state} that friends and family visit when they come to town.",
    str "Within an hour of {city}, {state}, what well-known attractions draw the biggest crowds?"], 3⟩,
  ⟨.outdoor_showstoppers, [
    str "Scenic drives, lakes, mountains, or outdoor escapes near {city}, {state} that locals love for day trips.",
    str "Where do residents of {city}, {state} head when they want nature or a change of scenery without flying?",
    str "Popular golf courses, resorts, or hiking loops people in {city}, {state} keep talking about this season."], 3⟩,
  ⟨.neighborhood_archetypes, [
    str "Iconic neighborhoods or master-planned communities around {city}, {state} and what they are known for.",
    str "Up-and-coming corridors or historic districts near {city}, {state} that locals love to brag about.",
    str "Describe the vibe locals associate with neighborhoods near ZIP {zip}."], 3⟩,
  ⟨.home_projects, [
    str "Homeowners in ZIP {zip} near {city}, {state}: what improvement or renovation projects are trending or commonly discussed?",
    str "What kinds of home upgrades or backyard projects are popular in ZIP {zip} these days, and why?",
    str "Any incentives or local contractors people mention when tackling projects around {city}, {state}?"], 2⟩,
  ⟨.economic_momentum, [
    str "Major employers, new campuses, or infrastructure projects shaping {city}, {state} right now.",
    str "What big developments (factories, tech hubs, hospitals) are in the pipeline around {city}, {state}?",
    str "Any headline-making investments or revitalization efforts near {city}, {state} that residents keep mentioning?"], 3⟩,
  ⟨.population_growth, [
    str "Summarize population or growth trends for {city}, {state} or ZIP {zip}. Why are people moving there?",
    str "Recent migration or growth stats that show how {city}, {state} is changing.",
    str "How has the population around {city}, {state} shifted over the past few years?"], 2⟩,
  ⟨.desirability_factors, [
    str "Top reasons people choose to move to {city}, {state}—schools, lifestyle, cost of living, climate, etc.",
    str "What makes {city}, {state} desirable compared with surrounding areas?",
    str "Awards or rankings that highlight {city}, {state} as a great place to live."], 3⟩,
  ⟨.sports_heat, [
    str "Sports teams, youth leagues, or game-day traditions people in {city}, {state} rally around lately.",
    str "Which local teams, rec leagues, or outdoor sports keep {city}, {state} residents fired up?",
    str "Any big wins, rivalry games, or upcoming tournaments locals are buzzing about in {city}, {state}."], 3⟩,
  ⟨.food_and_drink, [
    str "Beloved local restaurants, cafes, or breweries in {city}, {state} that residents rave about.",
    str "Signature dishes or food experiences people insist visitors try in {city}, {state}.",
    str "Popular farmers markets, craft beverage spots, or foodie events in {city}, {state}."], 3⟩,
  ⟨.civic_culture, [
    str "Museums, performing arts centers, or cultural institutions that define {city}, {state}.",
    str "Recent civic projects or community centers locals are excited about in {city}, {state}.",
    str "Where do people gather for arts, libraries, or community programs near {city}, {state}?"], 2⟩,
  ⟨.housing_signals, [
    str "Housing market signals around ZIP {zip}: home ages, new builds, or design styles locals mention.",
    str "Any chatter about inventory, price trends, or neighborhood transitions in {city}, {state}.",
    str "How are neighbors around {city}, {state} leveraging equity or refreshing older homes?"], 2⟩,
  ⟨.life_stage_notes, [
    str "What life stages dominate neighborhoods near ZIP {zip}? Mention families, retirees, or young professionals without using sensitive statistics.",
    str "Any signs of multigenerational living, downsizing, or move-up buyers in {city}, {state}.",
    str "How do locals describe the mix of people settling into {city}, {state} neighborhoods lately?"], 2⟩,
  ⟨.positive_news, [
    str "Recent good news stories around {city}, {state}—new parks, business expansions, or community wins.",
    str "Infrastructure improvements or openings locals near {city}, {state} are excited about.",
    str "Feel-good headlines or local achievements people in {city}, {state} are proud of."], 2⟩,
  ⟨.emotional_connectors, [
    str "Where do locals in {city}, {state} show pride or nostalgia—longstanding restaurants, charity events, volunteer traditions?",
    str "Beloved community rituals, memorials, or volunteer efforts that bring neighbors together in {city}, {state}.",
    str "What stories make residents of {city}, {state} light up when they talk about home?"], 2⟩]

/-- The key sequence of the query table, which is also the key set of
`emptyStrategicBuckets` (lines 486-508). -/
def allBucketKeys : List BucketKey := STRATEGIC_QUERIES.map (·.key)

/-- Template substitution (lines 526-531): JS `replace` with a string
pattern replaces the first occurrence of each placeholder. -/
def substTemplate (city state zip : LC) (template : LC) : LC :=
  replaceFirst (replaceFirst (replaceFirst template (str "{city}") city)
    (str "{state}") state) (str "{zip}") zip

/-- Inner merge loop over one settled snippet response (lines 541-547):
skip exact duplicates (`bucket.includes(snippet)`), push, and break once
the cap is reached (checked after the push). -/
def bucketFillOne (limit : Nat) (bucket : List LC) : List LC → List LC
  | [] => bucket
  | s :: rest =>
    if s ∈ bucket then bucketFillOne limit bucket rest
    else if limit ≤ (bucket ++ [s]).length then bucket ++ [s]
    else bucketFillOne limit (bucket ++ [s]) rest

/-- Outer merge loop over the per-template responses (lines 537-551): the
cap check that breaks out runs after each response is folded in. -/
def bucketFillAll (limit : Nat) (bucket : List LC) : List (List LC) → List LC
  | [] => bucket
  | r :: rest =>
    let b2 := bucketFillOne limit bucket r
    if limit ≤ b2.length then b2 else bucketFillAll limit b2 rest

/-- Aggregated strategic context: the 18 `(key, sentences)` entries plus
the derived `city_snapshot` (type `StrategicContextBuckets`). -/
structure StrategicContext where
  entries : List (BucketKey × List LC)
  citySnapshot : Option LC
deriving DecidableEq

/-- Bucket lookup in the assembled record. -/
def getBucket (entries : List (BucketKey × List LC)) (k : BucketKey) : List LC :=
  match entries.lookup k with
  | some b => b
  | none => []

/-- `buckets.<key>[0] || ...`: element 0 of the bucket if it is a truthy
(non-empty) string. -/
def bucketHead (entries : List (BucketKey × List LC)) (k : BucketKey) : Option LC :=
  match (getBucket entries k).head? with
  | some s => if s = [] then none else some s
  | none => none

/-- `city_snapshot` derivation (lines 562-572): first truthy leading
sentence along the fixed bucket priority order. -/
def deriveCitySnapshot (entries : List (BucketKey × List LC)) : Option LC :=
  [BucketKey.state_identity, .state_trends, .community_traditions,
   .iconic_destinations, .outdoor_showstoppers, .neighborhood_archetypes,
   .food_and_drink, .emotional_connectors, .positive_news].foldr
    (fun k acc => match bucketHead entries k with
                  | some s => some s
                  | none => acc) none

/-- `emptyStrategicBuckets` (lines 486-508): every bucket key present and
empty, `city_snapshot` null. -/
def emptyStrategicBuckets : StrategicContext :=
  ⟨STRATEGIC_QUERIES.map (fun cfg => (cfg.key, [])), none⟩

/-- One bucket worker of `fetchStrategicContext` (lines 521-554): build
its queries, fetch each through the Snippet Source with the bucket cap
as snippet limit, and fold the settled responses into the capped,
exactly-deduplicated bucket.

`oracle` maps a query string to its upstream outcome.
`queryDuckDuckGoSnippets` never rejects (its body is one `try/catch`
returning `[]`), so `Promise.allSettled` produces only fulfilled slots
and the `status !== "fulfilled"` skip is dead code. -/
def strategicBucket (oracle : LC → DDGUpstream) (city state zip : LC)
    (cfg : StrategicQueryConfig) : BucketKey × List LC :=
  let queries := cfg.templates.map (substTemplate city state zip)
  let responses := queries.map (fun q => queryDuckDuckGoSnippets (oracle q) cfg.limit)
  (cfg.key, bucketFillAll cfg.limit [] responses)

/-- `fetchStrategicContext` (lines 510-575).  A falsy (empty) state
short-circuits to the all-empty record; `replacements.city` falls back
to the state when the city is empty.  The bucket workers run through
`mapWithConcurrency` with limit 4, which returns results in input
order (proved below for the runner model), so the entry list is the
in-order image of the query table. -/
def fetchStrategicContext (oracle : LC → DDGUpstream) (city state zip : LC) :
    StrategicContext :=
  if state = [] then emptyStrategicBuckets
  else
    let cityRepl := if city = [] then state else city
    let entries := STRATEGIC_QUERIES.map (strategicBucket oracle cityRepl state zip)
    ⟨entries, deriveCitySnapshot entries⟩

/-! ### Place Source (Nominatim, lines 596-688)

The great-circle distance (`haversineMiles`, transcendental floating
point) enters only through the rounded per-place distance; it is
abstracted as the `distF` parameter, applied exactly where the source
applies `Math.round(haversineMiles(...) * 10) / 10`. -/

/-- One raw Nominatim item as destructured by the source:
`display_name` when it is a string, `lat`/`lon` as parsed by
`Number.parseFloat` when finite, and the optional link fields. -/
structure NomItem where
  displayName : Option LC
  lat : Option ℚ
  lon : Option ℚ
  wikipedia : Option LC
  website : Option LC
deriving DecidableEq

/-- Upstream outcome of one category query: thrown transport error, or an
HTTP response with its `ok` flag and JSON array (`none` when
`response.json()` rejects, which the `catch` turns into `[]`). -/
inductive NomUpstream where
  | transportError : NomUpstream
  | http (ok : Bool) (data : Option (List NomItem)) : NomUpstream
deriving DecidableEq

/-- Output record (type `LocalPlace`) for a fetched place. -/
structure LocalPlace where
  name : LC
  category : LC
  distance_miles : Option ℚ
  url : Option LC
deriving DecidableEq

/-- The fixed category query list (lines 609-620). -/
def NOMINATIM_QUERIES : List (LC × LC) := [
  (str "park", str "Park"), (str "trail", str "Trail"), (str "lake", str "Lake"),
  (str "stadium", str "Stadium"), (str "recreation center", str "Rec Center"),
  (str "community center", str "Community Hub"), (str "museum", str "Museum"),
  (str "farmers market", str "Market"), (str "shopping center", str "Shopping Destination"),
  (str "brewery", str "Brewery")]

/-- `(item.wikipedia as string) || (item.website as string) || null`. -/
def placeUrl (wikipedia website : Option LC) : Option LC :=
  if optTruthy wikipedia then wikipedia
  else if optTruthy website then website
  else none

/-- Per-item record construction loop (lines 650-669): skip items whose
`display_name` is not a string, keep the segment before the first comma
as the name, and attach the rounded distance only when both coordinates
parse to finite numbers. -/
def buildPlaceStep (distF : ℚ → ℚ → ℚ) (label : LC)
    (acc : List LocalPlace) (item : NomItem) : List LocalPlace :=
  match item.displayName with
  | none => acc
  | some name =>
    let distance := match item.lat, item.lon with
      | some la, some lo => some (distF la lo)
      | _, _ => none
    acc ++ [⟨(splitOnChar ',' name).headD name, label, distance,
             placeUrl item.wikipedia item.website⟩]

def buildPlaces (distF : ℚ → ℚ → ℚ) (label : LC) (data : List NomItem) : List LocalPlace :=
  data.foldl (buildPlaceStep distF label) []

/-- One category worker (lines 629-675): any transport error, non-success
status, or unparsable payload degrades to the empty list for that
category only. -/
def categoryPlaces (distF : ℚ → ℚ → ℚ) (label : LC) (u : NomUpstream) : List LocalPlace :=
  match u with
  | .transportError => []
  | .http ok data =>
    if !ok then []
    else match data with
      | none => []
      | some items => buildPlaces distF label items

/-- The cross-category merge (lines 678-685): case-insensitive dedup on
the stored place name, preserving first-seen order.  The two nested
loops walk the concatenation of the per-category lists in order. -/
def mergePlaces (seen : List LC) (acc : List LocalPlace) : List LocalPlace → List LocalPlace
  | [] => acc
  | p :: rest =>
    let key := lowerLC p.name
    if key ∈ seen then mergePlaces seen acc rest
    else mergePlaces (seen ++ [key]) (acc ++ [p]) rest

/-- The in-order list of per-category results; `mapWithConcurrency` with
limit 3 returns them in input order (proved below for the runner
model). -/
def categoryResults (distF : ℚ → ℚ → ℚ) (oracle : LC → NomUpstream) : List (List LocalPlace) :=
  NOMINATIM_QUERIES.map (fun ql => categoryPlaces distF ql.2 (oracle ql.1))

/-- `fetchLocalPlaces` (lines 600-688) with the upstream modelled per
category query string.  Missing coordinates short-circuit to `[]`; the
`limit` argument only shapes the request URL and is not re-applied
client-side, so it does not appear in the model. -/
def fetchLocalPlaces (distF : ℚ → ℚ → ℚ) (oracle : LC → NomUpstream)
    (latitude longitude : Option ℚ) : List LocalPlace :=
  match latitude, longitude with
  | some _, some _ => mergePlaces [] [] (categoryResults distF oracle).flatten
  | _, _ => []

/-! ### Geo Resolver (`lookupZip`, lines 358-390) -/

/-- One Zippopotam place record as destructured by the source; the
coordinate fields hold the `parseFloat` result when it is finite. -/
structure ZippoPlace where
  placeName : Option LC
  stateAbbreviation : Option LC
  state : Option LC
  latitude : Option ℚ
  longitude : Option ℚ
deriving DecidableEq

/-- Parsed Zippopotam body: `"post code"` and the `places` array (`none`
when the field is missing or not an array, which the source folds to
`[]`). -/
structure ZippoBody where
  postCode : Option LC
  places : Option (List ZippoPlace)
deriving DecidableEq

/-- Upstream outcome for the geo lookup: thrown transport error (or
timeout), or an HTTP response with status and JSON parse result. -/
inductive ZippoUpstream where
  | transportError : ZippoUpstream
  | http (status : Nat) (body : Option ZippoBody) : ZippoUpstream
deriving DecidableEq

/-- Resolved geo record (lines 383-389). -/
structure GeoResult where
  zip : LC
  city : LC
  state : LC
  latitude : Option ℚ
  longitude : Option ℚ
deriving DecidableEq

/-- Failure kinds of the geo resolver: a thrown fetch error, a non-404
non-success status (line 370), or a body `res.json()` cannot parse. -/
inductive GeoError where
  | transport : GeoError
  | badStatus (status : Nat) : GeoError
  | badPayload : GeoError
deriving DecidableEq

/-- `lookupZip` (lines 358-390).  `.ok none` is the typed not-found
outcome (the function returning `null`). -/
def lookupZip (zip : LC) (u : ZippoUpstream) : Except GeoError (Option GeoResult) :=
  match u with
  | .transportError => .error .transport
  | .http status body =>
    if status = 404 then .ok none
    else if ¬(200 ≤ status ∧ status < 300) then .error (.badStatus status)
    else
      match body with
      | none => .error .badPayload
      | some data =>
        let places := data.places.getD []
        match places with
        | [] => .ok none
        | first :: _ =>
          .ok (some
            { zip := data.postCode.getD zip
              city := first.placeName.getD []
              state := match first.stateAbbreviation with
                       | some s => s
                       | none => first.state.getD []
              latitude := first.latitude
              longitude := first.longitude })

/-! ### Synthesis Parser (`callGrok`, lines 848-884)

The model covers the parsing stage: the trimmed model-authored text
(after the fenced-block extraction of lines 841-846, which is the
identity on replies without backtick fences) is split into lines and
folded into anchors and the knowledge mapping. -/

/-- Anchor record (type `GrokAnchor`). -/
structure GrokAnchor where
  category : LC
  name : LC
  summary : LC
deriving DecidableEq

/-- Parse result (type `GrokSynthesis`): knowledge is an insertion-ordered
string-keyed mapping, as a JS object with only non-numeric keys behaves. -/
structure GrokSynthesis where
  knowledge : List (LC × List LC)
  anchors : List GrokAnchor
deriving DecidableEq

/-- `knowledge[bucket].push(sentence)` with on-demand key creation
(lines 874-877). -/
def kbAdd (k : LC) (v : LC) : List (LC × List LC) → List (LC × List LC)
  | [] => [(k, [v])]
  | (k0, vs) :: rest =>
    if k0 = k then (k0, vs ++ [v]) :: rest else (k0, vs) :: kbAdd k v rest

/-- One iteration of the line loop (lines 857-878). -/
def parseStep (acc : GrokSynthesis) (line : LC) : GrokSynthesis :=
  if (str "ANCHOR|").isPrefixOf line then
    let parts := (splitOnChar '|' line).map jsTrim
    if 4 ≤ parts.length then
      { acc with anchors := acc.anchors ++
          [⟨parts.getD 1 [], parts.getD 2 [],
            List.intercalate (str " ") (parts.drop 3)⟩] }
    else acc
  else
    match line.findIdx? (· = ':') with
    | none => acc
    | some separatorIndex =>
      let bucket := lowerLC (jsTrim (line.take separatorIndex))
      let sentence := jsTrim (line.drop (separatorIndex + 1))
      if bucket = [] ∨ sentence = [] then acc
      else { acc with knowledge := kbAdd bucket sentence acc.knowledge }

/-- The line splitter (lines 852-855): split on `\r?\n`, trim each line,
drop empties. -/
def synthesisLines (content : LC) : List LC :=
  ((splitLines content).map jsTrim).filter (· ≠ [])

/-- The parsing stage of `callGrok` (lines 848-878) on the extracted
content (which is first trimmed, line 848). -/
def parseSynthesis (content : LC) : GrokSynthesis :=
  (synthesisLines (jsTrim content)).foldl parseStep ⟨[], []⟩

/-- Content-failure kind of the parser stage. -/
inductive GrokFailure where
  | emptySynthesis : GrokFailure
deriving DecidableEq

/-- Lines 880-884: after parsing, an empty knowledge object together with
an empty anchor list raises the empty-synthesis error. -/
def synthesizeContent (content : LC) : Except GrokFailure GrokSynthesis :=
  if (parseSynthesis content).knowledge = [] ∧ (parseSynthesis content).anchors = [] then
    .error .emptySynthesis
  else .ok (parseSynthesis content)

/-! ### Response Cache and route handler (`GET`, lines 110-112, 887-1012) -/

/-- JS `String.prototype.includes` (used at line 1002 to pick 503 for a
missing-credential message). -/
def jsIncludes (pat : LC) : LC → Bool
  | [] => pat.isPrefixOf []
  | c :: rest => pat.isPrefixOf (c :: rest) || jsIncludes pat rest

/-- `validateZip` (line 887): `/^\d{5}$/`. -/
def validateZip (zip : LC) : Bool := zip.length = 5 && zip.all Char.isDigit

/-- `summary_card` shape (type `RapportSummary`). -/
structure RapportSummary where
  local_lifestyle_hook : LC
  equity_or_payment_hook : LC
  intent_probe : LC
deriving DecidableEq

/-- Assembled response payload (type `ZipRapportResponse`). -/
structure ZipRapportResponse where
  zip : LC
  city : LC
  state : LC
  summary_card : RapportSummary
  knowledge_brief : List (LC × List LC)
  grok_anchors : List GrokAnchor
  strategic_context : StrategicContext
  local_places : List LocalPlace
deriving DecidableEq

/-- Payload assembly (lines 979-994): `summary_card` fields deliberately
empty. -/
def mkPayload (geo : GeoResult) (synth : GrokSynthesis)
    (strat : StrategicContext) (places : List LocalPlace) : ZipRapportResponse :=
  { zip := geo.zip, city := geo.city, state := geo.state
    summary_card := ⟨[], [], []⟩
    knowledge_brief := synth.knowledge
    grok_anchors := synth.anchors
    strategic_context := strat
    local_places := places }

/-- One cache slot (value type of the module-level `Map`, line 112). -/
structure CacheEntry where
  timestamp : Int
  payload : ZipRapportResponse
deriving DecidableEq

/-- The ZIP-keyed cache map. -/
abbrev Cache := List (LC × CacheEntry)

/-- `cache.get(zip)`. -/
def cacheGet (c : Cache) (zip : LC) : Option CacheEntry := c.lookup zip

/-- `cache.set(zip, entry)`: unconditional overwrite, keeping first
insertion position as a JS `Map` does. -/
def cacheSet : Cache → LC → CacheEntry → Cache
  | [], zip, e => [(zip, e)]
  | (k, v) :: rest, zip, e =>
    if k = zip then (k, e) :: rest else (k, v) :: cacheSet rest zip e

/-- Cached-shape sanity check (lines 907-908): the cached payload's
strategic context must still carry an `iconic_destinations` list.  On
the typed payloads this model produces it always holds (proved below);
the guard targets entries written by older code shapes. -/
def cachedShapeOk (p : ZipRapportResponse) : Bool :=
  (p.strategic_context.entries.lookup BucketKey.iconic_destinations).isSome

/-- Everything that can come out of the pipeline body of the handler
(lines 917-997), abstracting the upstream orchestration: a geo
not-found, a thrown failure with its message, or a fully assembled
payload. -/
inductive PipelineOutcome where
  | geoNotFound : PipelineOutcome
  | failure (msg : LC) : PipelineOutcome
  | success (p : ZipRapportResponse) : PipelineOutcome
deriving DecidableEq

/-- Responses the handler can produce. -/
inductive HandlerResponse where
  | ok (p : ZipRapportResponse)
  | badRequest (detail : LC)
  | notFound (detail : LC)
  | upstreamError (status : Nat) (detail : LC)
deriving DecidableEq

/-- Result of one handled request: the response, the cache afterwards, and
whether the pipeline (geocoding plus all upstream fetches) ran. -/
structure HandlerResult where
  response : HandlerResponse
  cache : Cache
  pipelineRan : Bool
deriving DecidableEq

/-- `GET` (lines 891-1011).  `now` is the single `Date.now()` read
(line 905): it both judges freshness of a pre-existing entry and
becomes the stored timestamp of a newly cached payload (line 996).
Status selection on failure follows lines 1000-1004. -/
def handleGET (ttl : Int) (c : Cache) (zip : LC) (now : Int)
    (pr : PipelineOutcome) : HandlerResult :=
  if !(validateZip zip) then
    ⟨.badRequest (str "ZIP code must be 5 digits."), c, false⟩
  else
    match cacheGet c zip with
    | some e =>
      if now - e.timestamp < ttl && cachedShapeOk e.payload then
        ⟨.ok e.payload, c, false⟩
      else handleGETFresh c zip now pr
    | none => handleGETFresh c zip now pr
where
  /-- The `try` block (lines 917-997) reached on a cache miss. -/
  handleGETFresh (c : Cache) (zip : LC) (now : Int)
      (pr : PipelineOutcome) : HandlerResult :=
    match pr with
    | .geoNotFound => ⟨.notFound (str "ZIP " ++ zip ++ str " not found."), c, true⟩
    | .failure msg =>
      ⟨.upstreamError (if jsIncludes (str "GROK_API_KEY") msg then 503 else 502) msg,
        c, true⟩
    | .success p => ⟨.ok p, cacheSet c zip ⟨now, p⟩, true⟩

/-! ### Bounded Concurrency Runner (`mapWithConcurrency`, lines 117-144)

Modelled as a small-step machine driven by an explicit schedule: each
worker repeatedly claims the shared cursor synchronously and then
suspends awaiting its mapper call; a `claim` step is that synchronous
segment, a `complete` step is one awaited mapper call resolving.  A
worker is "outstanding" exactly while in the waiting state. -/

/-- Worker status: in the claim loop, awaiting the mapper on an index, or
exited. -/
inductive WorkerStatus where
  | ready : WorkerStatus
  | waiting (idx : Nat) : WorkerStatus
  | finished : WorkerStatus
deriving DecidableEq

/-- Machine state: the shared cursor, the results slots, and the workers. -/
structure RunnerState (R : Type) where
  cursor : Nat
  results : List (Option R)
  workers : List WorkerStatus

/-- A scheduler decision: resume worker `w`'s claim segment, or resolve
worker `w`'s outstanding mapper call. -/
inductive RunnerAct where
  | claim (w : Nat)
  | complete (w : Nat)

/-- One scheduler step; decisions that name no runnable worker change
nothing. -/
def runnerStep {R : Type} (n : Nat) (f : Nat → Option R)
    (s : RunnerState R) : RunnerAct → RunnerState R
  | .claim w =>
    match s.workers[w]? with
    | some .ready =>
      let index := s.cursor
      { cursor := index + 1
        results := s.results
        workers := s.workers.set w
          (if index < n then .waiting index else .finished) }
    | _ => s
  | .complete w =>
    match s.workers[w]? with
    | some (.waiting idx) =>
      { cursor := s.cursor
        results := s.results.set idx (f idx)
        workers := s.workers.set w .ready }
    | _ => s

/-- Initial state for `items.length = n` and `Math.min(limit, n)` workers
(lines 126-141). -/
def runnerInit (R : Type) (n workerCount : Nat) : RunnerState R :=
  ⟨0, List.replicate n none, List.replicate workerCount .ready⟩

/-- Run `mapWithConcurrency` on `items` with concurrency `limit` under the
given schedule.  The mapper receives `(items[index], index)`. -/
def mapWithConcurrency {T R : Type} (items : List T) (limit : Nat)
    (mapper : T → Nat → R) (sched : List RunnerAct) : RunnerState R :=
  sched.foldl
    (runnerStep items.length (fun i => (items[i]?).map (fun x => mapper x i)))
    (runnerInit R items.length (min limit items.length))

/-- All workers have exited their loops (`Promise.all(workers)` settled). -/
def allFinished {R : Type} (s : RunnerState R) : Prop :=
  ∀ w ∈ s.workers, w = WorkerStatus.finished

instance {R : Type} (s : RunnerState R) : Decidable (allFinished s) := by
  unfold allFinished; infer_instance

/-- Number of mapper invocations outstanding simultaneously. -/
def outstanding {R : Type} (s : RunnerState R) : Nat :=
  s.workers.countP (fun w => match w with | .waiting _ => true | _ => false)

/-! ## Parser lemmas shared by the claims about `callGrok` -/

/-- Behaviour of the line loop on an `ANCHOR|` line. -/
theorem parseStep_of_anchor (acc : GrokSynthesis) (line : LC)
    (h : (str "ANCHOR|").isPrefixOf line = true) :
    parseStep acc line =
      (if 4 ≤ ((splitOnChar '|' line).map jsTrim).length then
        ⟨acc.knowledge, acc.anchors ++
          [⟨((splitOnChar '|' line).map jsTrim).getD 1 [],
            ((splitOnChar '|' line).map jsTrim).getD 2 [],
            List.intercalate (str " ") (((splitOnChar '|' line).map jsTrim).drop 3)⟩]⟩
      else acc) := by
  simp only [parseStep, h, if_true]

/-- A non-anchor line without a colon is skipped. -/
theorem parseStep_of_noColon (acc : GrokSynthesis) (line : LC)
    (h : (str "ANCHOR|").isPrefixOf line = false)
    (hc : ∀ c ∈ line, c ≠ ':') :
    parseStep acc line = acc := by
  have hidx : line.findIdx? (· = ':') = none := by
    rw [List.findIdx?_eq_none_iff]
    intro x hx
    simpa using hc x hx
  simp only [parseStep, h, Bool.false_eq_true, if_false, hidx]

/-- A non-anchor line whose first colon sits at position `i` is split
there; the trimmed lower-cased left side and the trimmed right side are
recorded when both are non-empty. -/
theorem parseStep_of_colon (acc : GrokSynthesis) (line : LC) (i : Nat)
    (hi : i < line.length)
    (h : (str "ANCHOR|").isPrefixOf line = false)
    (hcolon : line.getD i ' ' = ':')
    (hfirst : ∀ j, j < i → line.getD j ' ' ≠ ':') :
    parseStep acc line =
      (if lowerLC (jsTrim (line.take i)) = [] ∨ jsTrim (line.drop (i + 1)) = [] then acc
       else ⟨kbAdd (lowerLC (jsTrim (line.take i))) (jsTrim (line.drop (i + 1)))
               acc.knowledge, acc.anchors⟩) := by
  have hidx : line.findIdx? (· = ':') = some i := by
    rw [List.findIdx?_eq_some_iff_getElem]
    refine ⟨hi, ?_, ?_⟩
    · have := List.getD_eq_getElem line ' ' hi
      simp only [this] at hcolon
      simp [hcolon]
    · intro j hj
      have hjl : j < line.length := Nat.lt_trans hj hi
      have := List.getD_eq_getElem line ' ' hjl
      have hne := hfirst j hj
      rw [this] at hne
      simp [hne]
  simp only [parseStep, h, Bool.false_eq_true, if_false, hidx]

/-! ## C2 — Synthesis Parser line grammar -/

/-- C2 (amended): an `ANCHOR|` line is accepted exactly when splitting on
`|` yields at least 4 fields, producing category = field 2, name =
field 3, summary = remaining fields joined by single spaces; any other
line is split at its first colon, and the trimmed lower-cased left side
with the trimmed right side is appended **provided both are non-empty**
(lines with an empty key or empty value are skipped, and the left side
is trimmed before lower-casing); lines without a colon are skipped.
The spec's concrete scenario parses as stated. -/
theorem c2_synthesis_line_grammar :
    (parseSynthesis (str "ANCHOR|FOOD_AND_DRINK|Joe\x27s Grill|Great patio.\nFOOD_AND_DRINK: Locals love the patio.") =
      ⟨[(str "food_and_drink", [str "Locals love the patio."])],
       [⟨str "FOOD_AND_DRINK", str "Joe\x27s Grill", str "Great patio."⟩]⟩)
    ∧ (∀ acc line, (str "ANCHOR|").isPrefixOf line = true →
        (4 ≤ ((splitOnChar '|' line).map jsTrim).length →
          parseStep acc line =
            ⟨acc.knowledge, acc.anchors ++
              [⟨((splitOnChar '|' line).map jsTrim).getD 1 [],
                ((splitOnChar '|' line).map jsTrim).getD 2 [],
                List.intercalate (str " ") (((splitOnChar '|' line).map jsTrim).drop 3)⟩]⟩)
        ∧ (((splitOnChar '|' line).map jsTrim).length < 4 → parseStep acc line = acc))
    ∧ (∀ acc line, (str "ANCHOR|").isPrefixOf line = false →
        (∀ c ∈ line, c ≠ ':') → parseStep acc line = acc)
    ∧ (∀ acc line i, i < line.length → (str "ANCHOR|").isPrefixOf line = false →
        line.getD i ' ' = ':' →
        (∀ j, j < i → line.getD j ' ' ≠ ':') →
        parseStep acc line =
          (if lowerLC (jsTrim (line.take i)) = [] ∨ jsTrim (line.drop (i + 1)) = [] then acc
           else ⟨kbAdd (lowerLC (jsTrim (line.take i))) (jsTrim (line.drop (i + 1)))
                   acc.knowledge, acc.anchors⟩)) := by
  refine ⟨by decide, ?_, parseStep_of_noColon, parseStep_of_colon⟩
  intro acc line h
  constructor
  · intro h4
    rw [parseStep_of_anchor acc line h, if_pos h4]
  · intro h4
    rw [parseStep_of_anchor acc line h, if_neg (by omega)]

/-- C2 counterexample to the claim as stated: the line `"x:"` contains a
colon, yet the parser records nothing for it (the claim says its
trimmed right side, the empty sentence, is appended under key `"x"`). -/
theorem c2_counterexample :
    ':' ∈ str "x:" ∧ parseSynthesis (str "x:") = ⟨[], []⟩ := by
  decide

/-- C2 witness: the amended per-line rule applied to the concrete line
`"K: v"`. -/
theorem c2_witness :
    parseStep ⟨[], []⟩ (str "K: v") = ⟨[(str "k", [str "v"])], []⟩ := by
  have h := c2_synthesis_line_grammar.2.2.2 ⟨[], []⟩ (str "K: v") 1 (by decide)
    (by decide) (by decide)
    (by intro j hj; have hj0 : j = 0 := Nat.lt_one_iff.mp hj; subst hj0; decide)
  rw [h]
  decide

/-! ## C6 — empty-synthesis error -/

/-- Folding the line loop over lines that are all skipped leaves the
accumulator unchanged. -/
theorem foldl_parseStep_skip (lines : List LC) (acc : GrokSynthesis)
    (h : ∀ line ∈ lines,
      ((str "ANCHOR|").isPrefixOf line = true ∧
        ((splitOnChar '|' line).map jsTrim).length < 4)
      ∨ ((str "ANCHOR|").isPrefixOf line = false ∧ ∀ c ∈ line, c ≠ ':')) :
    lines.foldl parseStep acc = acc := by
  induction lines generalizing acc with
  | nil => rfl
  | cons line rest ih =>
    have hline := h line (List.mem_cons_self line rest)
    have hstep : parseStep acc line = acc := by
      rcases hline with ⟨ha, hlen⟩ | ⟨ha, hc⟩
      · rw [parseStep_of_anchor acc line ha, if_neg (by omega)]
      · exact parseStep_of_noColon acc line ha hc
    rw [List.foldl_cons, hstep]
    exact ih _ (fun l hl => h l (List.mem_cons_of_mem line hl))

/-- C6 (confirmed): the parser stage raises the empty-synthesis error
exactly when both the anchor list and the knowledge mapping come out
empty; in particular a reply whose lines all lack a colon or are
`ANCHOR|` lines with fewer than 4 pipe-delimited fields produces it. -/
theorem c6_empty_synthesis :
    (∀ content, synthesizeContent content = .error .emptySynthesis ↔
      ((parseSynthesis content).knowledge = [] ∧ (parseSynthesis content).anchors = []))
    ∧ (∀ content,
        (∀ line ∈ synthesisLines (jsTrim content),
          ((str "ANCHOR|").isPrefixOf line = true ∧
            ((splitOnChar '|' line).map jsTrim).length < 4)
          ∨ ((str "ANCHOR|").isPrefixOf line = false ∧ ∀ c ∈ line, c ≠ ':')) →
        synthesizeContent content = .error .emptySynthesis) := by
  constructor
  · intro content
    unfold synthesizeContent
    split
    · next hcond => exact iff_of_true rfl hcond
    · next hcond => exact iff_of_false (by simp) hcond
  · intro content h
    have hfold : parseSynthesis content = ⟨[], []⟩ := by
      unfold parseSynthesis
      exact foldl_parseStep_skip _ _ h
    unfold synthesizeContent
    rw [hfold]
    rfl

/-- C6 witness: a reply made of one colon-free line and one short anchor
line raises the empty-synthesis error. -/
theorem c6_witness :
    synthesizeContent (str "hello world\nANCHOR|one|two") =
      .error .emptySynthesis := by
  apply c6_empty_synthesis.2
  decide

/-! ## C5 — geo resolver not-found classification -/

/-- C5 (amended): the typed not-found outcome arises exactly when the
upstream answers HTTP 404 **or** a success response whose parsed
payload carries no places; any other non-success status is a
`badStatus` hard failure and an unparsable success body is a
`badPayload` hard failure; a not-found outcome is surfaced as a 404
response whose detail contains the ZIP. -/
theorem c5_not_found_classification :
    (∀ zip status body, lookupZip zip (.http status body) = .ok none ↔
        (status = 404 ∨ (200 ≤ status ∧ status < 300 ∧
          ∃ b, body = some b ∧ b.places.getD [] = [])))
    ∧ (∀ zip, lookupZip zip .transportError = .error .transport)
    ∧ (∀ zip status body, status ≠ 404 → ¬(200 ≤ status ∧ status < 300) →
        lookupZip zip (.http status body) = .error (.badStatus status))
    ∧ (∀ zip status, status ≠ 404 → 200 ≤ status → status < 300 →
        lookupZip zip (.http status none) = .error .badPayload)
    ∧ (∀ ttl c zip now, validateZip zip = true → cacheGet c zip = none →
        (handleGET ttl c zip now .geoNotFound).response =
          .notFound (str "ZIP " ++ zip ++ str " not found.")
        ∧ zip <:+: (str "ZIP " ++ zip ++ str " not found.")) := by
  refine ⟨?_, fun _ => rfl, ?_, ?_, ?_⟩
  · intro zip status body
    by_cases h404 : status = 404
    · simp [lookupZip, h404]
    · by_cases hok : 200 ≤ status ∧ status < 300
      · cases body with
        | none => simp [lookupZip, h404, hok]
        | some b =>
          cases hp : b.places.getD [] with
          | nil => simp [lookupZip, h404, hok, hp]
          | cons first rest => simp [lookupZip, h404, hok, hp]
      · simp only [lookupZip, if_neg h404, if_pos hok]
        simp only [reduceCtorEq, false_iff, not_or]
        refine ⟨h404, ?_⟩
        intro ⟨h1, h2, _⟩
        exact hok ⟨h1, h2⟩
  · intro zip status body h404 hrange
    show lookupZip zip (.http status body) = .error (.badStatus status)
    simp only [lookupZip]
    rw [if_neg h404, if_pos hrange]
  · intro zip status h404 h2 h3
    have hok : ¬¬(200 ≤ status ∧ status < 300) := by
      intro hcon; exact hcon ⟨h2, h3⟩
    show lookupZip zip (.http status none) = .error .badPayload
    simp only [lookupZip]
    rw [if_neg h404, if_neg hok]
  · intro ttl c zip now hz hmiss
    constructor
    · simp [handleGET, hz, hmiss, handleGET.handleGETFresh]
    · exact ⟨str "ZIP ", str " not found.", rfl⟩

/-- C5 counterexample to the claim as stated: a 200 response whose payload
has an empty `places` array yields the not-found outcome although the
upstream status is not 404 (the claim allows not-found only on 404). -/
theorem c5_counterexample :
    lookupZip (str "99999") (.http 200 (some ⟨none, some []⟩)) = .ok none
    ∧ (200 : Nat) ≠ 404 := by
  exact ⟨rfl, by decide⟩

/-- C5 witness: a 500 response is a hard `badStatus` failure, not a
not-found outcome. -/
theorem c5_witness :
    lookupZip (str "85260") (.http 500 none) = .error (.badStatus 500) := by
  exact c5_not_found_classification.2.2.1 (str "85260") 500 none (by decide)
    (by omega)

/-! ## Cache lemmas shared by C4 and C10 -/

/-- `cache.set` followed by `cache.get` on the same key returns the new
entry. -/
theorem cacheGet_cacheSet_self (c : Cache) (zip : LC) (e : CacheEntry) :
    cacheGet (cacheSet c zip e) zip = some e := by
  induction c with
  | nil => simp [cacheSet, cacheGet, List.lookup]
  | cons kv rest ih =>
    obtain ⟨k, v⟩ := kv
    by_cases hk : k = zip
    · subst hk
      simp [cacheSet, cacheGet, List.lookup]
    · have hbeq : (zip == k) = false := by
        simp only [beq_eq_false_iff_ne, ne_eq]
        exact fun h => hk h.symm
      simp only [cacheSet, if_neg hk, cacheGet, List.lookup, hbeq]
      exact ih

/-- A valid request whose cached entry is stale falls through to the
pipeline ("treated as absent"). -/
theorem handleGET_stale_runs (ttl : Int) (c : Cache) (zip : LC) (now : Int)
    (pr : PipelineOutcome) (e : CacheEntry)
    (hz : validateZip zip = true)
    (hcg : cacheGet c zip = some e)
    (hstale : ¬(now - e.timestamp < ttl)) :
    (handleGET ttl c zip now pr).pipelineRan = true := by
  have hdec : decide (now - e.timestamp < ttl) = false := decide_eq_false hstale
  simp only [handleGET, hz, Bool.not_true, Bool.false_eq_true, if_false, hcg, hdec,
    Bool.false_and]
  cases pr <;> rfl

/-- A valid request that reached the pipeline and assembled a payload
responds with it and caches it under the request-start clock value. -/
theorem handleGET_success_run (ttl : Int) (c : Cache) (zip : LC) (t0 : Int)
    (p : ZipRapportResponse)
    (hz : validateZip zip = true)
    (hran : (handleGET ttl c zip t0 (.success p)).pipelineRan = true) :
    handleGET ttl c zip t0 (.success p) =
      ⟨.ok p, cacheSet c zip ⟨t0, p⟩, true⟩ := by
  simp only [handleGET, hz, Bool.not_true, Bool.false_eq_true, if_false] at hran ⊢
  cases hcg : cacheGet c zip with
  | none => rfl
  | some e =>
    simp only [hcg] at hran ⊢
    split at hran
    · exact absurd hran (by simp)
    · next hcond => simp only [hcond, if_false]; rfl

/-- Key membership gives a successful lookup. -/
theorem lookup_isSome_of_key_mem {α β : Type} [DecidableEq α]
    (l : List (α × β)) (k : α) (h : k ∈ l.map Prod.fst) :
    (l.lookup k).isSome = true := by
  induction l with
  | nil => simp at h
  | cons kv rest ih =>
    obtain ⟨a, b⟩ := kv
    by_cases hk : k = a
    · subst hk; simp [List.lookup]
    · have hbeq : (k == a) = false := by
        simp only [beq_eq_false_iff_ne, ne_eq]
        exact hk
      have hmem : k ∈ rest.map Prod.fst := by
        rcases List.mem_cons.mp h with h1 | h1
        · exact absurd h1 hk
        · exact h1
      simp only [List.lookup, hbeq]
      exact ih hmem

/-- The strategic context record always carries all 18 bucket keys, in
table order, whichever branch `fetchStrategicContext` takes. -/
theorem fetchStrategicContext_keys (oracle : LC → DDGUpstream)
    (city state zip : LC) :
    (fetchStrategicContext oracle city state zip).entries.map Prod.fst =
      allBucketKeys := by
  unfold fetchStrategicContext
  split <;> rfl

/-- Payloads assembled from either strategic-context shape pass the cached
schema sanity check. -/
theorem cachedShapeOk_mkPayload (geo : GeoResult) (synth : GrokSynthesis)
    (places : List LocalPlace) (oracle : LC → DDGUpstream) (city state zip : LC) :
    cachedShapeOk (mkPayload geo synth (fetchStrategicContext oracle city state zip) places)
      = true
    ∧ cachedShapeOk (mkPayload geo synth emptyStrategicBuckets places) = true := by
  constructor
  · show ((fetchStrategicContext oracle city state zip).entries.lookup
      BucketKey.iconic_destinations).isSome = true
    apply lookup_isSome_of_key_mem
    rw [fetchStrategicContext_keys]
    decide
  · show (emptyStrategicBuckets.entries.lookup BucketKey.iconic_destinations).isSome = true
    decide

/-! ## C4 — response cache semantics and idempotence -/

/-- C4 (confirmed): a stale entry is treated as absent (the pipeline
runs); `set` unconditionally overwrites; after a successful run at time
`t0`, any second request for the same ZIP at `t1` with `t1 - t0 < TTL`
returns the identical payload, leaves the cache untouched, and never
reaches the pipeline; assembled payloads always pass the cached-shape
check that guards the hit path. -/
theorem c4_cache_idempotence :
    (∀ ttl (c : Cache) zip now pr e, validateZip zip = true →
      cacheGet c zip = some e → ¬(now - e.timestamp < ttl) →
      (handleGET ttl c zip now pr).pipelineRan = true)
    ∧ (∀ (c : Cache) zip e, cacheGet (cacheSet c zip e) zip = some e)
    ∧ (∀ ttl (c : Cache) zip t0 t1 p pr2, validateZip zip = true →
        cachedShapeOk p = true →
        (handleGET ttl c zip t0 (.success p)).pipelineRan = true →
        t1 - t0 < ttl →
        handleGET ttl (handleGET ttl c zip t0 (.success p)).cache zip t1 pr2 =
          ⟨.ok p, (handleGET ttl c zip t0 (.success p)).cache, false⟩)
    ∧ (∀ geo synth places oracle city state zip,
        cachedShapeOk
          (mkPayload geo synth (fetchStrategicContext oracle city state zip) places)
          = true) := by
  refine ⟨fun ttl c zip now pr e => handleGET_stale_runs ttl c zip now pr e,
    cacheGet_cacheSet_self, ?_,
    fun geo synth places oracle city state zip =>
      (cachedShapeOk_mkPayload geo synth places oracle city state zip).1⟩
  intro ttl c zip t0 t1 p pr2 hz hshape hran hfresh
  rw [handleGET_success_run ttl c zip t0 p hz hran]
  have hdec : decide (t1 - t0 < ttl) = true := decide_eq_true hfresh
  simp only [handleGET, hz, Bool.not_true, Bool.false_eq_true, if_false,
    cacheGet_cacheSet_self, hdec, hshape, Bool.and_self, if_true]

/-- C4 witness: concrete two-request run with the default 6-hour TTL. -/
theorem c4_witness :
    handleGET 21600000
      (handleGET 21600000 [] (str "85260") 0
        (.success (mkPayload ⟨str "85260", str "Scottsdale", str "AZ", none, none⟩
          ⟨[], []⟩ emptyStrategicBuckets []))).cache
      (str "85260") 1000 .geoNotFound =
      ⟨.ok (mkPayload ⟨str "85260", str "Scottsdale", str "AZ", none, none⟩
          ⟨[], []⟩ emptyStrategicBuckets []),
        (handleGET 21600000 [] (str "85260") 0
          (.success (mkPayload ⟨str "85260", str "Scottsdale", str "AZ", none, none⟩
            ⟨[], []⟩ emptyStrategicBuckets []))).cache,
        false⟩ := by
  exact c4_cache_idempotence.2.2.1 21600000 [] (str "85260") 0 1000
    (mkPayload ⟨str "85260", str "Scottsdale", str "AZ", none, none⟩
      ⟨[], []⟩ emptyStrategicBuckets [])
    .geoNotFound (by decide) (by decide) (by decide) (by decide)

/-! ## C10 — cache timestamp is the request-start clock -/

/-- C10 (confirmed): the timestamp stored with a cache entry is the single
`Date.now()` value captured at the start of request handling, before
geocoding and the upstream fetches; a later request therefore misses as
soon as `TTL` has elapsed since that start, even though, for any
pipeline duration `d > 0`, the entry is only `TTL - d < TTL` old
relative to its actual write time `t0 + d`. -/
theorem c10_timestamp_is_start_clock :
    ∀ ttl (c : Cache) zip t0 p (d : Int),
      validateZip zip = true →
      (handleGET ttl c zip t0 (.success p)).pipelineRan = true →
      (cacheGet (handleGET ttl c zip t0 (.success p)).cache zip = some ⟨t0, p⟩)
      ∧ (∀ t pr2, ttl ≤ t - t0 →
          (handleGET ttl (handleGET ttl c zip t0 (.success p)).cache zip t pr2).pipelineRan
            = true)
      ∧ (0 < d → (t0 + ttl) - (t0 + d) < ttl) := by
  intro ttl c zip t0 p d hz hran
  rw [handleGET_success_run ttl c zip t0 p hz hran]
  refine ⟨cacheGet_cacheSet_self c zip ⟨t0, p⟩, ?_, fun hd => by omega⟩
  intro t pr2 hstale
  exact handleGET_stale_runs ttl (cacheSet c zip ⟨t0, p⟩) zip t pr2 ⟨t0, p⟩ hz
    (cacheGet_cacheSet_self c zip ⟨t0, p⟩) (show ¬(t - t0 < ttl) by omega)

/-- C10 witness: with TTL 1000, a payload cached for a request that
started at time 0 misses at time 1000 even though the write happened at
time 600. -/
theorem c10_witness :
    (cacheGet (handleGET 1000 [] (str "85260") 0
        (.success (mkPayload ⟨str "85260", str "Scottsdale", str "AZ", none, none⟩
          ⟨[], []⟩ emptyStrategicBuckets []))).cache (str "85260") =
      some ⟨0, mkPayload ⟨str "85260", str "Scottsdale", str "AZ", none, none⟩
          ⟨[], []⟩ emptyStrategicBuckets []⟩)
    ∧ ((handleGET 1000 (handleGET 1000 [] (str "85260") 0
        (.success (mkPayload ⟨str "85260", str "Scottsdale", str "AZ", none, none⟩
          ⟨[], []⟩ emptyStrategicBuckets []))).cache
        (str "85260") 1000 .geoNotFound).pipelineRan = true)
    ∧ ((0 : Int) + 1000 - ((0 : Int) + 600) < 1000) := by
  have h := c10_timestamp_is_start_clock 1000 [] (str "85260") 0
    (mkPayload ⟨str "85260", str "Scottsdale", str "AZ", none, none⟩
      ⟨[], []⟩ emptyStrategicBuckets []) 600 (by decide) (by decide)
  exact ⟨h.1, h.2.1 1000 .geoNotFound (by omega), h.2.2 (by omega)⟩

/-! ## C8 — failure isolation of the search sources -/

/-- The failure paths of one category query of the Place Source: a thrown
fetch, a non-success status, or a body `response.json()` cannot parse. -/
def nomFailed : NomUpstream → Bool
  | .transportError => true
  | .http ok data => !ok || data.isNone

/-- C8 (confirmed): every Snippet Source failure path (transport error,
non-success status, empty body, unparsable payload) yields the empty
list; a failing category query of the Place Source yields the empty
list for that category and behaves exactly like an empty success,
leaving the other categories untouched; with every search call failing,
the strategic context degrades to the all-empty bucket record and the
place list to `[]` — a context is still produced. -/
theorem c8_failure_isolation :
    (∀ limit, queryDuckDuckGoSnippets .transportError limit = [])
    ∧ (∀ limit bodyText parsed,
        queryDuckDuckGoSnippets (.http false bodyText parsed) limit = [])
    ∧ (∀ limit ok parsed, queryDuckDuckGoSnippets (.http ok [] parsed) limit = [])
    ∧ (∀ limit ok bodyText, queryDuckDuckGoSnippets (.http ok bodyText none) limit = [])
    ∧ (∀ distF label u, nomFailed u = true → categoryPlaces distF label u = [])
    ∧ (∀ distF oracle la lo,
        fetchLocalPlaces distF oracle la lo =
        fetchLocalPlaces distF
          (fun q => if nomFailed (oracle q) then .http true (some []) else oracle q)
          la lo)
    ∧ (∀ city state zip,
        fetchStrategicContext (fun _ => .transportError) city state zip =
          emptyStrategicBuckets)
    ∧ (∀ distF la lo, fetchLocalPlaces distF (fun _ => .transportError) la lo = []) := by
  have hcat : ∀ (distF : ℚ → ℚ → ℚ) label u, nomFailed u = true →
      categoryPlaces distF label u = [] := by
    intro distF label u hu
    cases u with
    | transportError => rfl
    | http ok data =>
      cases ok with
      | false => rfl
      | true =>
        cases data with
        | none => rfl
        | some items => simp [nomFailed] at hu
  refine ⟨fun _ => rfl, fun _ _ _ => rfl, ?_, ?_, hcat, ?_, ?_, ?_⟩
  · intro limit ok parsed
    cases ok <;> rfl
  · intro limit ok bodyText
    cases ok with
    | false => rfl
    | true =>
      by_cases hb : bodyText = [] <;> simp [queryDuckDuckGoSnippets, hb]
  · intro distF oracle la lo
    cases la with
    | none => rfl
    | some a =>
      cases lo with
      | none => rfl
      | some b =>
        have hmap : categoryResults distF oracle =
            categoryResults distF
              (fun q => if nomFailed (oracle q) then .http true (some []) else oracle q) := by
          unfold categoryResults
          apply List.map_congr_left
          intro ql _
          by_cases hf : nomFailed (oracle ql.1) = true
          · rw [hcat distF ql.2 (oracle ql.1) hf]
            simp only [hf, if_true]
            rfl
          · simp only [hf, Bool.false_eq_true, if_false]
        show mergePlaces [] [] (categoryResults distF oracle).flatten =
          mergePlaces [] [] (categoryResults distF _).flatten
        rw [hmap]
  · intro city state zip
    unfold fetchStrategicContext
    split <;> rfl
  · intro distF la lo
    cases la with
    | none => rfl
    | some a => cases lo <;> rfl

/-- C8 witness: a concrete failed category query (a thrown transport
error) degrades to the empty list. -/
theorem c8_witness :
    categoryPlaces (fun _ _ => (0 : ℚ)) (str "Park") .transportError = [] := by
  exact c8_failure_isolation.2.2.2.2.1 (fun _ _ => (0 : ℚ)) (str "Park")
    .transportError (by decide)

/-! ## C9 — Place Source merge invariants -/

/-- Distinctness of two places under case-insensitive name comparison. -/
def nameNe (p q : LocalPlace) : Prop := lowerLC p.name ≠ lowerLC q.name

/-- Invariant of the cross-category merge loop: given that `seen` is
exactly the set of lower-cased names of `acc` and `acc` is already
deduplicated, the loop output extends `acc` by a subsequence of the
remaining stream, stays deduplicated, and represents every streamed
name. -/
theorem mergePlaces_invariant :
    ∀ (rest : List LocalPlace) (seen : List LC) (acc : List LocalPlace),
      (∀ k, k ∈ seen ↔ ∃ q ∈ acc, lowerLC q.name = k) →
      acc.Pairwise nameNe →
      (mergePlaces seen acc rest).Pairwise nameNe
      ∧ (∃ ext, mergePlaces seen acc rest = acc ++ ext ∧ ext.Sublist rest)
      ∧ (∀ p ∈ rest, ∃ q ∈ mergePlaces seen acc rest,
          lowerLC q.name = lowerLC p.name) := by
  intro rest
  induction rest with
  | nil =>
    intro seen acc hinv hnodup
    exact ⟨hnodup, ⟨[], by simp [mergePlaces], List.nil_sublist []⟩, by simp⟩
  | cons p rest ih =>
    intro seen acc hinv hnodup
    by_cases hk : lowerLC p.name ∈ seen
    · have hres : mergePlaces seen acc (p :: rest) = mergePlaces seen acc rest := by
        simp [mergePlaces, hk]
      obtain ⟨h1, ⟨ext, hext, hsub⟩, h3⟩ := ih seen acc hinv hnodup
      refine ⟨by rw [hres]; exact h1,
        ⟨ext, by rw [hres]; exact hext, hsub.cons p⟩, ?_⟩
      intro q hq
      rcases List.mem_cons.mp hq with h | h
      · obtain ⟨w, hw, hwn⟩ := (hinv (lowerLC p.name)).mp hk
        refine ⟨w, ?_, by rw [hwn, h]⟩
        rw [hres, hext]
        exact List.mem_append_left ext hw
      · rw [hres]; exact h3 q h
    · have hres : mergePlaces seen acc (p :: rest) =
          mergePlaces (seen ++ [lowerLC p.name]) (acc ++ [p]) rest := by
        simp [mergePlaces, hk]
      have hinv' : ∀ k, k ∈ seen ++ [lowerLC p.name] ↔
          ∃ q ∈ acc ++ [p], lowerLC q.name = k := by
        intro k
        simp only [List.mem_append, List.mem_singleton, hinv k]
        constructor
        · rintro (⟨q, hq, hqn⟩ | rfl)
          · exact ⟨q, Or.inl hq, hqn⟩
          · exact ⟨p, Or.inr rfl, rfl⟩
        · rintro ⟨q, hq | rfl, hqn⟩
          · exact Or.inl ⟨q, hq, hqn⟩
          · exact Or.inr hqn.symm
      have hnodup' : (acc ++ [p]).Pairwise nameNe := by
        rw [List.pairwise_append]
        refine ⟨hnodup, List.pairwise_singleton _ _, ?_⟩
        intro a ha b hb
        rw [List.mem_singleton.mp hb]
        intro hcon
        exact hk ((hinv (lowerLC p.name)).mpr ⟨a, ha, hcon⟩)
      obtain ⟨h1, ⟨ext, hext, hsub⟩, h3⟩ := ih _ _ hinv' hnodup'
      refine ⟨by rw [hres]; exact h1,
        ⟨p :: ext, by rw [hres, hext]; simp, hsub.cons₂ p⟩, ?_⟩
      intro q hq
      rcases List.mem_cons.mp hq with h | h
      · refine ⟨p, ?_, by rw [h]⟩
        rw [hres, hext]
        exact List.mem_append_left ext (List.mem_append_right acc (by simp))
      · rw [hres]; exact h3 q h

/-- The per-item loop ignores records lacking a string display name. -/
theorem buildPlaces_skips_nameless (distF : ℚ → ℚ → ℚ) (label : LC) :
    ∀ data : List NomItem,
      buildPlaces distF label data =
        buildPlaces distF label (data.filter (fun it => it.displayName.isSome)) := by
  have haux : ∀ (data : List NomItem) (acc : List LocalPlace),
      data.foldl (buildPlaceStep distF label) acc =
        (data.filter (fun it => it.displayName.isSome)).foldl
          (buildPlaceStep distF label) acc := by
    intro data
    induction data with
    | nil => intro acc; rfl
    | cons item rest ihd =>
      intro acc
      cases hd : item.displayName with
      | none =>
        have hstep : buildPlaceStep distF label acc item = acc := by
          unfold buildPlaceStep
          rw [hd]
        simp only [List.foldl_cons, hstep, List.filter_cons, hd, Option.isSome_none,
          Bool.false_eq_true, if_false]
        exact ihd acc
      | some name =>
        simp only [List.foldl_cons, List.filter_cons, hd, Option.isSome_some, if_true]
        exact ihd _
  intro data
  unfold buildPlaces
  exact haux data []

/-- C9 (confirmed): the merged place list carries no two places whose
stored names agree after lower-casing, is a subsequence of the
concatenated per-category results (so first-seen order across the fixed
category order is preserved), represents every fetched name, and the
per-category loop skips any record lacking a string display name. -/
theorem c9_place_merge :
    ∀ (distF : ℚ → ℚ → ℚ) (oracle : LC → NomUpstream) (la lo : Option ℚ),
      (fetchLocalPlaces distF oracle la lo).Pairwise nameNe
      ∧ (fetchLocalPlaces distF oracle la lo).Sublist
          (categoryResults distF oracle).flatten
      ∧ (∀ a b, la = some a → lo = some b →
          ∀ p ∈ (categoryResults distF oracle).flatten,
            ∃ q ∈ fetchLocalPlaces distF oracle la lo,
              lowerLC q.name = lowerLC p.name)
      ∧ (∀ label data, buildPlaces distF label data =
          buildPlaces distF label (data.filter (fun it => it.displayName.isSome))) := by
  intro distF oracle la lo
  have hinv0 : ∀ k : LC, k ∈ ([] : List LC) ↔
      ∃ q ∈ ([] : List LocalPlace), lowerLC q.name = k := by simp
  cases la with
  | none =>
    refine ⟨List.Pairwise.nil, List.nil_sublist _, ?_, buildPlaces_skips_nameless distF⟩
    intro a b hab
    exact absurd hab (by simp)
  | some a =>
    cases lo with
    | none =>
      refine ⟨List.Pairwise.nil, List.nil_sublist _, ?_, buildPlaces_skips_nameless distF⟩
      intro a' b' _ hab
      exact absurd hab (by simp)
    | some b =>
      obtain ⟨h1, ⟨ext, hext, hsub⟩, h3⟩ :=
        mergePlaces_invariant (categoryResults distF oracle).flatten [] []
          hinv0 List.Pairwise.nil
      refine ⟨h1, ?_, fun _ _ _ _ => h3, buildPlaces_skips_nameless distF⟩
      show (mergePlaces [] [] (categoryResults distF oracle).flatten).Sublist _
      rw [hext]
      simpa using hsub

/-- C9 witness: a concrete merge where the second category repeats the
first category's name with different casing stays deduplicated while
the repeated name is still represented by the first occurrence. -/
theorem c9_witness :
    (fetchLocalPlaces (fun _ _ => (0 : ℚ))
      (fun q => if q = str "park" then
          .http true (some [⟨some (str "Rio Vista Park"), none, none, none, none⟩])
        else if q = str "trail" then
          .http true (some [⟨some (str "RIO VISTA PARK"), none, none, none, none⟩,
                            ⟨none, none, none, none, none⟩,
                            ⟨some (str "Sun Circle Trail"), none, none, none, none⟩])
        else .transportError)
      (some 0) (some 0)).Pairwise nameNe
    ∧ ∃ q ∈ fetchLocalPlaces (fun _ _ => (0 : ℚ))
        (fun q => if q = str "park" then
            .http true (some [⟨some (str "Rio Vista Park"), none, none, none, none⟩])
          else if q = str "trail" then
            .http true (some [⟨some (str "RIO VISTA PARK"), none, none, none, none⟩,
                              ⟨none, none, none, none, none⟩,
                              ⟨some (str "Sun Circle Trail"), none, none, none, none⟩])
          else .transportError)
        (some 0) (some 0),
        lowerLC q.name =
          lowerLC (LocalPlace.mk (str "RIO VISTA PARK") (str "Trail") none none).name := by
  refine ⟨(c9_place_merge (fun _ _ => (0 : ℚ)) _ (some 0) (some 0)).1, ?_⟩
  exact (c9_place_merge (fun _ _ => (0 : ℚ)) _ (some 0) (some 0)).2.2.1 0 0 rfl rfl
    ⟨str "RIO VISTA PARK", str "Trail", none, none⟩ (by decide)

example :
    fetchLocalPlaces (fun _ _ => (0 : ℚ))
      (fun q => if q = str "park" then
          .http true (some [⟨some (str "Rio Vista Park"), none, none, none, none⟩])
        else if q = str "trail" then
          .http true (some [⟨some (str "RIO VISTA PARK"), none, none, none, none⟩,
                            ⟨none, none, none, none, none⟩,
                            ⟨some (str "Sun Circle Trail"), none, none, none, none⟩])
        else .transportError)
      (some 0) (some 0) =
      [⟨str "Rio Vista Park", str "Park", none, none⟩,
       ⟨str "Sun Circle Trail", str "Trail", none, none⟩] := by
  decide

/-! ## C7 — whitespace-normal form of snippets -/

/-- Adjacent characters are never both whitespace. -/
def noWSRun (l : LC) : Prop :=
  l.Chain' (fun a b => ¬(isWS a = true ∧ isWS b = true))

/-- Whitespace-normal form: every whitespace character is a plain space,
no two are adjacent, none sits at either edge. -/
def wsNormal (l : LC) : Prop :=
  (∀ c ∈ l, isWS c = true → c = ' ')
  ∧ noWSRun l
  ∧ (∀ c, l.head? = some c → isWS c = false)
  ∧ (∀ c, l.getLast? = some c → isWS c = false)

theorem squeeze_mem_ws : ∀ l : LC, ∀ c ∈ squeeze l, isWS c = true → c = ' ' := by
  intro l
  induction l with
  | nil => intro c hc; simp [squeeze] at hc
  | cons a rest ih =>
    cases rest with
    | nil =>
      intro c hc hws
      simp only [squeeze, List.mem_singleton] at hc
      subst hc
      by_cases ha : isWS a = true
      · simp [ha]
      · rw [if_neg ha] at hws
        exact absurd hws ha
    | cons b rest2 =>
      intro c hc hws
      simp only [squeeze] at hc
      split at hc
      · exact ih c hc hws
      · rcases List.mem_cons.mp hc with rfl | hc2
        · by_cases ha : isWS a = true
          · simp [ha]
          · rw [if_neg ha] at hws
            exact absurd hws ha
        · exact ih c hc2 hws

theorem squeeze_head (d : Char) (rest : LC) (hd : isWS d = false) :
    (squeeze (d :: rest)).head? = some d := by
  cases rest with
  | nil => simp [squeeze, hd]
  | cons e rest2 => simp [squeeze, hd]

theorem squeeze_chain : ∀ l : LC, noWSRun (squeeze l) := by
  intro l
  induction l with
  | nil => exact List.chain'_nil
  | cons a rest ih =>
    cases rest with
    | nil =>
      exact List.chain'_singleton _
    | cons b rest2 =>
      simp only [squeeze]
      split
      · exact ih
      · next hcond =>
        unfold noWSRun
        rw [List.chain'_cons']
        refine ⟨?_, ih⟩
        intro y hy
        by_cases ha : isWS a = true
        · have hb : isWS b = false := by
            cases hbb : isWS b
            · rfl
            · exact absurd (by simp [ha, hbb]) hcond
          rw [squeeze_head b rest2 hb, Option.mem_def] at hy
          injection hy with hy
          subst hy
          rintro ⟨-, h2⟩
          exact absurd h2 (by simp [hb])
        · rintro ⟨h1, -⟩
          rw [if_neg ha] at h1
          exact ha h1

theorem head?_dropWhile_not (p : Char → Bool) :
    ∀ (l : LC) (c : Char), (l.dropWhile p).head? = some c → p c = false := by
  intro l
  induction l with
  | nil => intro c hc; simp at hc
  | cons a rest ih =>
    intro c hc
    by_cases ha : p a = true
    · rw [List.dropWhile_cons, if_pos ha] at hc
      exact ih c hc
    · rw [List.dropWhile_cons, if_neg ha] at hc
      cases hc
      simpa using ha

theorem trimR_pref (l : LC) : trimR l <+: l := by
  have h := List.dropWhile_suffix (l := l.reverse) (fun c => isWS c)
  rw [← List.reverse_suffix]
  simp only [trimR, List.reverse_reverse]
  exact h

theorem jsTrim_within (l : LC) : jsTrim l <:+: l :=
  ((trimR_pref (trimL l)).isInfix).trans (List.dropWhile_suffix _).isInfix

theorem head?_of_pref {l₁ l₂ : LC} {c : Char} (h : l₁ <+: l₂)
    (hc : l₁.head? = some c) : l₂.head? = some c := by
  obtain ⟨t, rfl⟩ := h
  cases l₁ with
  | nil => simp at hc
  | cons a r => simpa using hc

theorem head?_jsTrim_not_ws (l : LC) (c : Char)
    (hc : (jsTrim l).head? = some c) : isWS c = false := by
  have h2 : (trimL l).head? = some c := head?_of_pref (trimR_pref (trimL l)) hc
  exact head?_dropWhile_not _ l c h2

theorem getLast?_jsTrim_not_ws (l : LC) (c : Char)
    (hc : (jsTrim l).getLast? = some c) : isWS c = false := by
  have h2 : ((trimL l).reverse.dropWhile (fun c => isWS c)).head? = some c := by
    have : jsTrim l = ((trimL l).reverse.dropWhile (fun c => isWS c)).reverse := rfl
    rw [this, List.getLast?_reverse] at hc
    exact hc
  exact head?_dropWhile_not _ _ c h2

theorem wsNormal_jsTrim (x : LC)
    (h1 : ∀ c ∈ x, isWS c = true → c = ' ') (h2 : noWSRun x) :
    wsNormal (jsTrim x) :=
  ⟨fun c hc => h1 c ((jsTrim_within x).sublist.subset hc),
   List.Chain'.infix h2 (jsTrim_within x),
   head?_jsTrim_not_ws x,
   getLast?_jsTrim_not_ws x⟩

theorem wsNormal_normalizeBlurb (l : LC) : wsNormal (normalizeBlurb l) :=
  wsNormal_jsTrim _ (squeeze_mem_ws l) (squeeze_chain l)

theorem squeeze_eq_self : ∀ l : LC, (∀ c ∈ l, isWS c = true → c = ' ') →
    noWSRun l → squeeze l = l := by
  intro l
  induction l with
  | nil => intro _ _; rfl
  | cons a rest ih =>
    intro h1 h2
    cases rest with
    | nil =>
      by_cases ha : isWS a = true
      · have := h1 a (by simp) ha
        simp [squeeze, ha, this]
      · simp [squeeze, ha]
    | cons b rest2 =>
      have hR : ¬(isWS a = true ∧ isWS b = true) :=
        (List.chain'_cons.mp h2).1
      have hcond : (isWS a && isWS b) = false := by
        cases haa : isWS a
        · rfl
        · cases hbb : isWS b
          · rfl
          · exact absurd ⟨haa, hbb⟩ hR
      have htail : squeeze (b :: rest2) = b :: rest2 :=
        ih (fun c hc => h1 c (List.mem_cons_of_mem a hc))
          (List.chain'_cons.mp h2).2
      have hhead : (if isWS a then ' ' else a) = a := by
        by_cases haa : isWS a = true
        · rw [if_pos haa, h1 a (by simp) haa]
        · rw [if_neg (by simpa using haa)]
      simp only [squeeze, hcond, Bool.false_eq_true, if_false, htail, hhead]

theorem trimL_eq_self (l : LC)
    (hhead : ∀ c, l.head? = some c → isWS c = false) : trimL l = l := by
  cases l with
  | nil => rfl
  | cons a rest =>
    have := hhead a rfl
    simp [trimL, List.dropWhile_cons, this]

theorem trimR_eq_self (l : LC)
    (hlast : ∀ c, l.getLast? = some c → isWS c = false) : trimR l = l := by
  have h : l.reverse.dropWhile (fun c => isWS c) = l.reverse := by
    cases hr : l.reverse with
    | nil => rfl
    | cons a t =>
      have ha : isWS a = false := by
        apply hlast
        rw [← List.head?_reverse, hr]
        rfl
      simp [List.dropWhile_cons, ha]
  simp [trimR, h]

theorem normalizeBlurb_eq_self (l : LC) (h : wsNormal l) :
    normalizeBlurb l = l := by
  obtain ⟨h1, h2, h3, h4⟩ := h
  show trimR (trimL (squeeze l)) = l
  rw [squeeze_eq_self l h1 h2, trimL_eq_self l h3, trimR_eq_self l h4]

theorem wsNormal_append_char (l : LC) (c : Char) (h : wsNormal l)
    (hc : isWS c = false) : wsNormal (l ++ [c]) := by
  obtain ⟨h1, h2, h3, h4⟩ := h
  refine ⟨?_, ?_, ?_, ?_⟩
  · intro d hd hws
    rcases List.mem_append.mp hd with hdl | hdc
    · exact h1 d hdl hws
    · rw [List.mem_singleton.mp hdc] at hws
      exact absurd hws (by simp [hc])
  · refine List.Chain'.append h2 (List.chain'_singleton c) ?_
    intro x hx y hy
    simp only [List.head?_cons, Option.mem_def, Option.some.injEq] at hy
    subst hy
    rintro ⟨-, hcc⟩
    exact absurd hcc (by simp [hc])
  · intro d hd
    cases l with
    | nil =>
      simp only [List.nil_append, List.head?_cons, Option.some.injEq] at hd
      subst hd; exact hc
    | cons a r =>
      simp only [List.cons_append, List.head?_cons, Option.some.injEq] at hd
      subst hd
      exact h3 a rfl
  · intro d hd
    rw [List.getLast?_concat] at hd
    cases hd
    exact hc

theorem wsNormal_trim_take (l : LC) (n : Nat) (h : wsNormal l) :
    wsNormal (jsTrim (l.take n)) := by
  apply wsNormal_jsTrim
  · intro c hc hws
    exact h.1 c (List.take_subset n l hc) hws
  · have hp : l.take n <+: l := List.take_prefix n l
    exact List.Chain'.prefix h.2.1 hp

theorem jsTrim_length_le (l : LC) : (jsTrim l).length ≤ l.length :=
  (jsTrim_within l).sublist.length_le

/-- The ellipsis marker is not terminal punctuation, so the truncated
branch always receives the appended period. -/
theorem endsPunct_concat_ellipsis (x : LC) : endsPunct (x ++ ['…']) = false := by
  simp [endsPunct, List.getLast?_concat]

/-- Shape of `ensureSentence` when the normalized candidate exceeds 220
characters: clip to 217, trim, ellipsis, period — at most 219
characters in total. -/
theorem ensureSentence_truncation (c : LC)
    (h : 220 < (normalizeBlurb c).length) :
    ensureSentence c = jsTrim ((normalizeBlurb c).take 217) ++ ['…'] ++ ['.']
    ∧ (ensureSentence c).length ≤ 219 := by
  have hne : normalizeBlurb c ≠ [] := by
    intro hnil
    rw [hnil] at h
    simp at h
  have hres : ensureSentence c = jsTrim ((normalizeBlurb c).take 217) ++ ['…'] ++ ['.'] := by
    unfold ensureSentence
    rw [if_neg hne, if_pos h, if_neg (by simp [endsPunct_concat_ellipsis])]
  refine ⟨hres, ?_⟩
  rw [hres]
  have h217 : (jsTrim ((normalizeBlurb c).take 217)).length ≤ 217 :=
    le_trans (jsTrim_length_le _)
      (by rw [List.length_take]; exact Nat.min_le_left 217 _)
  simp only [List.length_append, List.length_cons, List.length_nil]
  omega

/-- Every non-empty output of `ensureSentence` is whitespace-normalized
(a fixed point of `normalizeBlurb`), carries terminal punctuation, and
is at most 221 characters long. -/
theorem ensureSentence_spec (c : LC) (hne : ensureSentence c ≠ []) :
    normalizeBlurb (ensureSentence c) = ensureSentence c
    ∧ endsPunct (ensureSentence c) = true
    ∧ (ensureSentence c).length ≤ 221 := by
  by_cases ht : normalizeBlurb c = []
  · exact absurd (by unfold ensureSentence; rw [if_pos ht]) hne
  · by_cases hlen : 220 < (normalizeBlurb c).length
    · obtain ⟨hres, hl⟩ := ensureSentence_truncation c hlen
      have hnorm : wsNormal (jsTrim ((normalizeBlurb c).take 217) ++ ['…'] ++ ['.']) :=
        wsNormal_append_char _ '.'
          (wsNormal_append_char _ '…'
            (wsNormal_trim_take (normalizeBlurb c) 217 (wsNormal_normalizeBlurb c))
            (by decide))
          (by decide)
      refine ⟨?_, ?_, ?_⟩
      · rw [hres]
        exact normalizeBlurb_eq_self _ hnorm
      · rw [hres]
        simp [endsPunct, List.getLast?_concat]
      · omega
    · by_cases hp : endsPunct (normalizeBlurb c) = true
      · have hres : ensureSentence c = normalizeBlurb c := by
          unfold ensureSentence
          rw [if_neg ht, if_neg hlen, if_pos hp]
        refine ⟨?_, ?_, ?_⟩
        · rw [hres]
          exact normalizeBlurb_eq_self _ (wsNormal_normalizeBlurb c)
        · rw [hres]; exact hp
        · rw [hres]; omega
      · have hres : ensureSentence c = normalizeBlurb c ++ ['.'] := by
          unfold ensureSentence
          rw [if_neg ht, if_neg hlen, if_neg hp]
        refine ⟨?_, ?_, ?_⟩
        · rw [hres]
          exact normalizeBlurb_eq_self _
            (wsNormal_append_char _ '.' (wsNormal_normalizeBlurb c) (by decide))
        · rw [hres]
          simp [endsPunct, List.getLast?_concat]
        · rw [hres]
          simp only [List.length_append, List.length_cons, List.length_nil]
          omega

/-- Invariant of the snippet dedup/cap loop: starting from a seen set
covering the accumulator, a deduplicated accumulator strictly below the
cap, the loop output extends the accumulator by a subsequence of the
processed candidates, stays case-insensitively deduplicated, keeps only
non-empty processed candidates, and never exceeds the cap. -/
theorem collectSnippets_invariant :
    ∀ (cands : List LC) (limit : Nat) (seen : List LC) (acc : List LC),
      (∀ s ∈ acc, lowerLC s ∈ seen) →
      acc.Pairwise (fun a b => lowerLC a ≠ lowerLC b) →
      acc.length < limit →
      (collectSnippets limit seen acc cands).Pairwise
          (fun a b => lowerLC a ≠ lowerLC b)
      ∧ (∃ ext, collectSnippets limit seen acc cands = acc ++ ext
          ∧ ext.Sublist (cands.map ensureSentence)
          ∧ ∀ s ∈ ext, s ≠ [] ∧ ∃ c ∈ cands, s = ensureSentence c)
      ∧ (collectSnippets limit seen acc cands).length ≤ limit := by
  intro cands
  induction cands with
  | nil =>
    intro limit seen acc hseen hnodup hlt
    exact ⟨hnodup, ⟨[], by simp [collectSnippets], List.nil_sublist _, by simp⟩,
      by simp [collectSnippets]; omega⟩
  | cons cand rest ih =>
    intro limit seen acc hseen hnodup hlt
    by_cases hs : ensureSentence cand = []
    · have hres : collectSnippets limit seen acc (cand :: rest) =
          collectSnippets limit seen acc rest := by
        simp [collectSnippets, hs]
      obtain ⟨h1, ⟨ext, hext, hsub, hmem⟩, h3⟩ := ih limit seen acc hseen hnodup hlt
      rw [hres]
      refine ⟨h1, ⟨ext, hext, hsub.cons _, ?_⟩, h3⟩
      intro s hsm
      obtain ⟨hne2, c2, hc2, hc2e⟩ := hmem s hsm
      exact ⟨hne2, c2, List.mem_cons_of_mem cand hc2, hc2e⟩
    · by_cases hk : lowerLC (ensureSentence cand) ∈ seen
      · have hres : collectSnippets limit seen acc (cand :: rest) =
            collectSnippets limit seen acc rest := by
          simp [collectSnippets, hs, hk]
        obtain ⟨h1, ⟨ext, hext, hsub, hmem⟩, h3⟩ := ih limit seen acc hseen hnodup hlt
        rw [hres]
        refine ⟨h1, ⟨ext, hext, hsub.cons _, ?_⟩, h3⟩
        intro s hsm
        obtain ⟨hne2, c2, hc2, hc2e⟩ := hmem s hsm
        exact ⟨hne2, c2, List.mem_cons_of_mem cand hc2, hc2e⟩
      · have hfreshNodup : (acc ++ [ensureSentence cand]).Pairwise
            (fun a b => lowerLC a ≠ lowerLC b) := by
          rw [List.pairwise_append]
          refine ⟨hnodup, List.pairwise_singleton _ _, ?_⟩
          intro a ha b hb
          rw [List.mem_singleton.mp hb]
          intro hcon
          exact hk (hcon ▸ hseen a ha)
        by_cases hcap : limit ≤ (acc ++ [ensureSentence cand]).length
        · have hres : collectSnippets limit seen acc (cand :: rest) =
              acc ++ [ensureSentence cand] := by
            simp only [collectSnippets]
            rw [if_neg hs, if_neg hk, if_pos hcap]
          rw [hres]
          refine ⟨hfreshNodup,
            ⟨[ensureSentence cand], rfl,
              (List.nil_sublist _).cons₂ _, ?_⟩, ?_⟩
          · intro s hsm
            rw [List.mem_singleton.mp hsm]
            exact ⟨hs, cand, List.mem_cons_self cand rest, rfl⟩
          · simp only [List.length_append, List.length_cons, List.length_nil]
            omega
        · have hres : collectSnippets limit seen acc (cand :: rest) =
              collectSnippets limit (seen ++ [lowerLC (ensureSentence cand)])
                (acc ++ [ensureSentence cand]) rest := by
            simp only [collectSnippets]
            rw [if_neg hs, if_neg hk, if_neg hcap]
          have hseen' : ∀ s ∈ acc ++ [ensureSentence cand],
              lowerLC s ∈ seen ++ [lowerLC (ensureSentence cand)] := by
            intro s hsm
            rcases List.mem_append.mp hsm with h | h
            · exact List.mem_append_left _ (hseen s h)
            · rw [List.mem_singleton.mp h]
              exact List.mem_append_right _ (by simp)
          have hlt' : (acc ++ [ensureSentence cand]).length < limit := by
            simp only [List.length_append, List.length_cons, List.length_nil] at hcap ⊢
            omega
          obtain ⟨h1, ⟨ext, hext, hsub, hmem⟩, h3⟩ :=
            ih limit _ _ hseen' hfreshNodup hlt'
          rw [hres]
          refine ⟨h1, ⟨ensureSentence cand :: ext, ?_, hsub.cons₂ _, ?_⟩, h3⟩
          · rw [hext]; simp
          · intro s hsm
            rcases List.mem_cons.mp hsm with rfl | h
            · exact ⟨hs, cand, List.mem_cons_self cand rest, rfl⟩
            · obtain ⟨hne2, c2, hc2, hc2e⟩ := hmem s h
              exact ⟨hne2, c2, List.mem_cons_of_mem cand hc2, hc2e⟩

/-- C7 (amended): every sentence returned by the Snippet Source is a
fixed point of the whitespace normalizer, ends with terminal
punctuation, and is at most **221** characters long (when the
normalized candidate exceeds 220 characters it is truncated with an
ellipsis marker to at most 219; the 221st character arises exactly from
a 220-character normalized candidate lacking terminal punctuation); for
`limit ≥ 1` the returned list has at most `limit` elements, no two of
them equal under case-insensitive comparison, and they appear as a
subsequence of the processed candidates in the fixed field-priority
order. -/
theorem c7_snippet_contract :
    ∀ (u : DDGUpstream) (limit : Nat), 1 ≤ limit →
      (∀ s ∈ queryDuckDuckGoSnippets u limit,
        normalizeBlurb s = s ∧ endsPunct s = true ∧ s.length ≤ 221
        ∧ ∃ c ∈ ddgUpstreamCandidates u, s = ensureSentence c)
      ∧ (∀ c : LC, 220 < (normalizeBlurb c).length →
          ensureSentence c = jsTrim ((normalizeBlurb c).take 217) ++ ['…'] ++ ['.']
          ∧ (ensureSentence c).length ≤ 219)
      ∧ (queryDuckDuckGoSnippets u limit).Pairwise
          (fun a b => lowerLC a ≠ lowerLC b)
      ∧ (queryDuckDuckGoSnippets u limit).length ≤ limit
      ∧ (queryDuckDuckGoSnippets u limit).Sublist
          ((ddgUpstreamCandidates u).map ensureSentence) := by
  have hmain : ∀ (cands : List LC) (limit : Nat), 1 ≤ limit →
      (∀ s ∈ collectSnippets limit [] [] cands,
        normalizeBlurb s = s ∧ endsPunct s = true ∧ s.length ≤ 221
        ∧ ∃ c ∈ cands, s = ensureSentence c)
      ∧ (collectSnippets limit [] [] cands).Pairwise
          (fun a b => lowerLC a ≠ lowerLC b)
      ∧ (collectSnippets limit [] [] cands).length ≤ limit
      ∧ (collectSnippets limit [] [] cands).Sublist (cands.map ensureSentence) := by
    intro cands limit hlim
    obtain ⟨h1, ⟨ext, hext, hsub, hmem⟩, h3⟩ :=
      collectSnippets_invariant cands limit [] [] (by simp) List.Pairwise.nil
        (by simpa using hlim)
    refine ⟨?_, h1, h3, by rw [hext]; simpa using hsub⟩
    intro s hsm
    rw [hext] at hsm
    obtain ⟨hne, c, hc, hce⟩ := hmem s (by simpa using hsm)
    obtain ⟨hn, hp, hl⟩ := ensureSentence_spec c (hce ▸ hne)
    exact ⟨hce ▸ hn, hce ▸ hp, hce ▸ hl, c, hc, hce⟩
  intro u limit hlim
  cases u with
  | transportError =>
    exact ⟨by simp [queryDuckDuckGoSnippets], ensureSentence_truncation,
      by simp [queryDuckDuckGoSnippets], by simp [queryDuckDuckGoSnippets],
      by simp [queryDuckDuckGoSnippets, ddgUpstreamCandidates]⟩
  | http ok bodyText parsed =>
    cases ok with
    | false =>
      exact ⟨by simp [queryDuckDuckGoSnippets], ensureSentence_truncation,
        by simp [queryDuckDuckGoSnippets], by simp [queryDuckDuckGoSnippets],
        by simp [queryDuckDuckGoSnippets, ddgUpstreamCandidates]⟩
    | true =>
      by_cases hb : bodyText = []
      · refine ⟨?_, ensureSentence_truncation, ?_, ?_, ?_⟩ <;>
          simp [queryDuckDuckGoSnippets, ddgUpstreamCandidates, hb]
      · cases parsed with
        | none =>
          refine ⟨?_, ensureSentence_truncation, ?_, ?_, ?_⟩ <;>
            simp [queryDuckDuckGoSnippets, ddgUpstreamCandidates, hb]
        | some d =>
          have hq : queryDuckDuckGoSnippets (.http true bodyText (some d)) limit =
              collectSnippets limit [] [] (ddgCandidates d) := by
            simp [queryDuckDuckGoSnippets, hb]
          have hcand : ddgUpstreamCandidates (.http true bodyText (some d)) =
              ddgCandidates d := by
            simp [ddgUpstreamCandidates, hb]
          obtain ⟨h1, h2, h3, h4⟩ := hmain (ddgCandidates d) limit hlim
          rw [hq, hcand]
          exact ⟨h1, ensureSentence_truncation, h2, h3, h4⟩

/-- C7 counterexample to the claim as stated: a 220-character normalized
candidate without terminal punctuation yields a **221**-character
sentence, and with `limit = 0` a sentence is still returned. -/
theorem c7_counterexample :
    (ensureSentence (List.replicate 220 'a')).length = 221
    ∧ collectSnippets 0 [] [] [str "A"] = [str "A."] := by
  exact ⟨by decide, by decide⟩

/-- C7 witness: the contract applied to a concrete parsed payload with
`limit = 2`. -/
theorem c7_witness :
    (queryDuckDuckGoSnippets
      (.http true (str "x")
        (some ⟨some (str "Tempe"), some (str " great  town "), some (str "Great town"),
               none, none, none⟩)) 2).Pairwise
      (fun a b => lowerLC a ≠ lowerLC b)
    ∧ (queryDuckDuckGoSnippets
        (.http true (str "x")
          (some ⟨some (str "Tempe"), some (str " great  town "), some (str "Great town"),
                 none, none, none⟩)) 2).length ≤ 2 := by
  have h := c7_snippet_contract
    (.http true (str "x")
      (some ⟨some (str "Tempe"), some (str " great  town "), some (str "Great town"),
             none, none, none⟩)) 2 (by omega)
  exact ⟨h.2.2.1, h.2.2.2.1⟩

/-! ## C1 — strategic bucket invariants -/

/-- Invariant of the inner merge loop over one settled response: starting
strictly below the cap from an exactly-deduplicated bucket, the loop
appends a subsequence of the response, stays deduplicated, and never
exceeds the cap. -/
theorem bucketFillOne_invariant :
    ∀ (r : List LC) (limit : Nat) (bucket : List LC),
      bucket.Nodup → bucket.length < limit →
      (bucketFillOne limit bucket r).Nodup
      ∧ (∃ ext, bucketFillOne limit bucket r = bucket ++ ext ∧ ext.Sublist r)
      ∧ (bucketFillOne limit bucket r).length ≤ limit := by
  intro r
  induction r with
  | nil =>
    intro limit bucket hnd hlt
    exact ⟨hnd, ⟨[], by simp [bucketFillOne], List.nil_sublist _⟩,
      by simp [bucketFillOne]; omega⟩
  | cons s rest ih =>
    intro limit bucket hnd hlt
    by_cases hmem : s ∈ bucket
    · have hres : bucketFillOne limit bucket (s :: rest) =
          bucketFillOne limit bucket rest := by
        simp only [bucketFillOne]
        rw [if_pos hmem]
      obtain ⟨h1, ⟨ext, hext, hsub⟩, h3⟩ := ih limit bucket hnd hlt
      rw [hres]
      exact ⟨h1, ⟨ext, hext, hsub.cons _⟩, h3⟩
    · have hnd' : (bucket ++ [s]).Nodup := by
        rw [List.nodup_append]
        refine ⟨hnd, List.nodup_singleton s, ?_⟩
        intro a ha hb
        rw [List.mem_singleton.mp hb] at ha
        exact hmem ha
      by_cases hcap : limit ≤ (bucket ++ [s]).length
      · have hres : bucketFillOne limit bucket (s :: rest) = bucket ++ [s] := by
          simp only [bucketFillOne]
          rw [if_neg hmem, if_pos hcap]
        rw [hres]
        refine ⟨hnd', ⟨[s], rfl, (List.nil_sublist _).cons₂ _⟩, ?_⟩
        simp only [List.length_append, List.length_cons, List.length_nil]
        omega
      · have hres : bucketFillOne limit bucket (s :: rest) =
            bucketFillOne limit (bucket ++ [s]) rest := by
          simp only [bucketFillOne]
          rw [if_neg hmem, if_neg hcap]
        have hlt' : (bucket ++ [s]).length < limit := by
          simp only [List.length_append, List.length_cons, List.length_nil] at hcap ⊢
          omega
        obtain ⟨h1, ⟨ext, hext, hsub⟩, h3⟩ := ih limit (bucket ++ [s]) hnd' hlt'
        rw [hres]
        exact ⟨h1, ⟨s :: ext, by rw [hext]; simp, hsub.cons₂ _⟩, h3⟩

/-- Invariant of the outer merge loop over all settled responses. -/
theorem bucketFillAll_invariant :
    ∀ (rs : List (List LC)) (limit : Nat) (bucket : List LC),
      bucket.Nodup → bucket.length < limit →
      (bucketFillAll limit bucket rs).Nodup
      ∧ (∃ ext, bucketFillAll limit bucket rs = bucket ++ ext
          ∧ ext.Sublist rs.flatten)
      ∧ (bucketFillAll limit bucket rs).length ≤ limit := by
  intro rs
  induction rs with
  | nil =>
    intro limit bucket hnd hlt
    exact ⟨hnd, ⟨[], by simp [bucketFillAll], List.nil_sublist _⟩,
      by simp [bucketFillAll]; omega⟩
  | cons r rest ih =>
    intro limit bucket hnd hlt
    obtain ⟨hnd2, ⟨ext1, hext1, hsub1⟩, hlen2⟩ := bucketFillOne_invariant r limit bucket hnd hlt
    by_cases hstop : limit ≤ (bucketFillOne limit bucket r).length
    · have hres : bucketFillAll limit bucket (r :: rest) = bucketFillOne limit bucket r := by
        simp only [bucketFillAll]
        rw [if_pos hstop]
      rw [hres]
      refine ⟨hnd2, ⟨ext1, hext1, ?_⟩, hlen2⟩
      rw [List.flatten_cons]
      exact hsub1.trans (List.sublist_append_left r rest.flatten)
    · have hres : bucketFillAll limit bucket (r :: rest) =
          bucketFillAll limit (bucketFillOne limit bucket r) rest := by
        simp only [bucketFillAll]
        rw [if_neg hstop]
      obtain ⟨hnd3, ⟨ext2, hext2, hsub2⟩, hlen3⟩ :=
        ih limit (bucketFillOne limit bucket r) hnd2 (by omega)
      rw [hres]
      refine ⟨hnd3, ⟨ext1 ++ ext2, ?_, ?_⟩, hlen3⟩
      · rw [hext2, hext1, List.append_assoc]
      · rw [List.flatten_cons]
        exact hsub1.append hsub2

/-- C1 (amended): for every oracle and location input the strategic
context record carries all 18 bucket keys in table order; every bucket
holds at most its configured cap (2 or 3) of sentences, contains no two
**identical** sentences (deduplication is exact string comparison, not
case-insensitive), and lists them in insertion order as a subsequence
of the per-template snippet responses in template order. -/
theorem c1_bucket_invariants :
    ∀ (oracle : LC → DDGUpstream) (city state zip : LC),
      ((fetchStrategicContext oracle city state zip).entries.map Prod.fst = allBucketKeys)
      ∧ (∀ cfg ∈ STRATEGIC_QUERIES, cfg.limit = 2 ∨ cfg.limit = 3)
      ∧ List.Forall₂ (fun (cfg : StrategicQueryConfig) (e : BucketKey × List LC) =>
          e.1 = cfg.key ∧ e.2.length ≤ cfg.limit ∧ e.2.Nodup
          ∧ e.2.Sublist ((cfg.templates.map (fun t =>
              queryDuckDuckGoSnippets
                (oracle (substTemplate (if city = [] then state else city) state zip t))
                cfg.limit)).flatten))
          STRATEGIC_QUERIES (fetchStrategicContext oracle city state zip).entries := by
  intro oracle city state zip
  have hlims : ∀ cfg ∈ STRATEGIC_QUERIES, cfg.limit = 2 ∨ cfg.limit = 3 := by decide
  refine ⟨fetchStrategicContext_keys oracle city state zip, hlims, ?_⟩
  by_cases hstate : state = []
  · have hentries : (fetchStrategicContext oracle city state zip).entries =
        STRATEGIC_QUERIES.map (fun cfg => (cfg.key, [])) := by
      unfold fetchStrategicContext
      rw [if_pos hstate]
      rfl
    rw [hentries, List.forall₂_map_right_iff, List.forall₂_same]
    intro cfg _
    exact ⟨rfl, by simp, List.nodup_nil, List.nil_sublist _⟩
  · have hentries : (fetchStrategicContext oracle city state zip).entries =
        STRATEGIC_QUERIES.map
          (strategicBucket oracle (if city = [] then state else city) state zip) := by
      unfold fetchStrategicContext
      rw [if_neg hstate]
    rw [hentries, List.forall₂_map_right_iff, List.forall₂_same]
    intro cfg hcfg
    have hlim : 1 ≤ cfg.limit := by
      rcases hlims cfg hcfg with h | h <;> omega
    obtain ⟨hnd, ⟨ext, hext, hsub⟩, hlen⟩ :=
      bucketFillAll_invariant
        ((cfg.templates.map
            (substTemplate (if city = [] then state else city) state zip)).map
          (fun q => queryDuckDuckGoSnippets (oracle q) cfg.limit))
        cfg.limit [] List.nodup_nil (by simp only [List.length_nil]; omega)
    refine ⟨rfl, hlen, hnd, ?_⟩
    show (bucketFillAll cfg.limit []
        ((cfg.templates.map
            (substTemplate (if city = [] then state else city) state zip)).map
          (fun q => queryDuckDuckGoSnippets (oracle q) cfg.limit))).Sublist _
    rw [hext, List.nil_append]
    simp only [List.map_map, Function.comp] at hsub
    exact hsub

/-- Oracle for the C1 counterexample: queries starting with `H` (the first
`state_identity` template) answer with heading `A`, queries starting
with `S` (the second) with heading `a`, and everything else fails. -/
def c1Oracle : LC → DDGUpstream := fun q =>
  match q.head? with
  | some 'H' => .http true (str "x") (some ⟨some (str "A"), none, none, none, none, none⟩)
  | some 'S' => .http true (str "x") (some ⟨some (str "a"), none, none, none, none, none⟩)
  | _ => .transportError

/-- C1 counterexample to the claim as stated: two different templates of
the `state_identity` bucket return the sentences `"A."` and `"a."`;
both land in the bucket because the merge deduplicates by exact string
comparison, so the bucket holds two sentences that are equal under
case-insensitive comparison. -/
theorem c1_counterexample :
    getBucket (fetchStrategicContext c1Oracle (str "Scottsdale") (str "S") (str "Z")).entries
        BucketKey.state_identity = [str "A.", str "a."]
    ∧ lowerLC (str "A.") = lowerLC (str "a.")
    ∧ str "A." ≠ str "a." := by
  refine ⟨by decide, by decide, by decide⟩

/-- C1 witness: the invariants applied to the counterexample oracle, with
the cap fact discharged at the first table entry. -/
theorem c1_witness :
    ((fetchStrategicContext c1Oracle (str "Scottsdale") (str "S") (str "Z")).entries.map
        Prod.fst = allBucketKeys)
    ∧ ((STRATEGIC_QUERIES.headD ⟨.state_identity, [], 2⟩).limit = 2
        ∨ (STRATEGIC_QUERIES.headD ⟨.state_identity, [], 2⟩).limit = 3) := by
  have h := c1_bucket_invariants c1Oracle (str "Scottsdale") (str "S") (str "Z")
  exact ⟨h.1, h.2.1 (STRATEGIC_QUERIES.headD ⟨.state_identity, [], 2⟩) (by decide)⟩

/-! ## C3 — bounded concurrency runner -/

/-- Machine invariant: result and worker vectors keep their sizes, every
outstanding index was claimed below both the item count and the cursor,
every claimed index is either stored or still outstanding with some
worker, and a finished worker certifies the cursor passed the end. -/
def RunnerInv {R : Type} (n W : Nat) (f : Nat → Option R) (s : RunnerState R) : Prop :=
  s.results.length = n
  ∧ s.workers.length = W
  ∧ (∀ (w idx : Nat), s.workers[w]? = some (WorkerStatus.waiting idx) →
      idx < n ∧ idx < s.cursor)
  ∧ (∀ i : Nat, i < n → i < s.cursor →
      s.results[i]? = some (f i)
      ∨ ∃ w : Nat, s.workers[w]? = some (WorkerStatus.waiting i))
  ∧ ((∃ w : Nat, s.workers[w]? = some WorkerStatus.finished) → n ≤ s.cursor)

theorem runnerInv_init {R : Type} (n W : Nat) (f : Nat → Option R) :
    RunnerInv n W f (runnerInit R n W) := by
  refine ⟨List.length_replicate n none, List.length_replicate W _, ?_, ?_, ?_⟩
  · intro w idx hw
    simp only [runnerInit] at hw
    rw [List.getElem?_replicate] at hw
    split at hw <;> simp at hw
  · intro i _ hc
    simp only [runnerInit] at hc
    exact absurd hc (by omega)
  · rintro ⟨w, hw⟩
    simp only [runnerInit] at hw
    rw [List.getElem?_replicate] at hw
    split at hw <;> simp at hw

theorem runnerInv_step {R : Type} (n W : Nat) (f : Nat → Option R)
    (s : RunnerState R) (a : RunnerAct) (h : RunnerInv n W f s) :
    RunnerInv n W f (runnerStep n f s a) := by
  obtain ⟨hrl, hwl, hwait, hres, hfin⟩ := h
  cases a with
  | claim w =>
    cases hw : s.workers[w]? with
    | none => simpa [runnerStep, hw] using ⟨hrl, hwl, hwait, hres, hfin⟩
    | some st =>
      cases st with
      | waiting idx => simpa [runnerStep, hw] using ⟨hrl, hwl, hwait, hres, hfin⟩
      | finished => simpa [runnerStep, hw] using ⟨hrl, hwl, hwait, hres, hfin⟩
      | ready =>
        have hwlt : w < s.workers.length := by
          by_contra hge
          rw [List.getElem?_eq_none (by omega)] at hw
          cases hw
        have hst : runnerStep n f s (.claim w) =
            ⟨s.cursor + 1, s.results,
              s.workers.set w
                (if s.cursor < n then .waiting s.cursor else .finished)⟩ := by
          simp only [runnerStep, hw]
        rw [hst]
        refine ⟨hrl, by simpa using hwl, ?_, ?_, ?_⟩
        · intro w' idx hw'
          dsimp only at hw' ⊢
          by_cases hww : w' = w
          · subst hww
            rw [List.getElem?_set_self hwlt] at hw'
            by_cases hcn : s.cursor < n
            · rw [if_pos hcn] at hw'
              injection hw' with h1
              injection h1 with h2
              omega
            · rw [if_neg hcn] at hw'
              injection hw' with h1
              cases h1
          · rw [List.getElem?_set_ne (by omega)] at hw'
            have := hwait w' idx hw'
            omega
        · intro i hi hc
          dsimp only at hc ⊢
          by_cases hic : i < s.cursor
          · rcases hres i hi hic with hr | ⟨w', hw'⟩
            · exact Or.inl hr
            · by_cases hww : w' = w
              · subst hww
                rw [hw] at hw'
                simp at hw'
              · refine Or.inr ⟨w', ?_⟩
                rw [List.getElem?_set_ne (by omega)]
                exact hw'
          · have hieq : i = s.cursor := by omega
            subst hieq
            refine Or.inr ⟨w, ?_⟩
            rw [List.getElem?_set_self hwlt, if_pos hi]
        · rintro ⟨w', hw'⟩
          dsimp only at hw' ⊢
          by_cases hww : w' = w
          · subst hww
            rw [List.getElem?_set_self hwlt] at hw'
            by_cases hcn : s.cursor < n
            · rw [if_pos hcn] at hw'
              simp at hw'
            · omega
          · rw [List.getElem?_set_ne (by omega)] at hw'
            have := hfin ⟨w', hw'⟩
            omega
  | complete w =>
    cases hw : s.workers[w]? with
    | none => simpa [runnerStep, hw] using ⟨hrl, hwl, hwait, hres, hfin⟩
    | some st =>
      cases st with
      | ready => simpa [runnerStep, hw] using ⟨hrl, hwl, hwait, hres, hfin⟩
      | finished => simpa [runnerStep, hw] using ⟨hrl, hwl, hwait, hres, hfin⟩
      | waiting idx =>
        have hwlt : w < s.workers.length := by
          by_contra hge
          rw [List.getElem?_eq_none (by omega)] at hw
          cases hw
        have hidx := hwait w idx hw
        have hst : runnerStep n f s (.complete w) =
            ⟨s.cursor, s.results.set idx (f idx), s.workers.set w .ready⟩ := by
          simp only [runnerStep, hw]
        rw [hst]
        refine ⟨by simpa using hrl, by simpa using hwl, ?_, ?_, ?_⟩
        · intro w' idx' hw'
          dsimp only at hw' ⊢
          by_cases hww : w' = w
          · subst hww
            rw [List.getElem?_set_self hwlt] at hw'
            simp at hw'
          · rw [List.getElem?_set_ne (by omega)] at hw'
            exact hwait w' idx' hw'
        · intro i hi hc
          dsimp only at hc ⊢
          by_cases hii : i = idx
          · subst hii
            refine Or.inl ?_
            rw [List.getElem?_set_self (by omega)]
          · rcases hres i hi hc with hr | ⟨w', hw'⟩
            · refine Or.inl ?_
              rw [List.getElem?_set_ne (by omega)]
              exact hr
            · by_cases hww : w' = w
              · subst hww
                rw [hw] at hw'
                simp only [Option.some.injEq, WorkerStatus.waiting.injEq] at hw'
                exact absurd hw'.symm hii
              · refine Or.inr ⟨w', ?_⟩
                rw [List.getElem?_set_ne (by omega)]
                exact hw'
        · rintro ⟨w', hw'⟩
          dsimp only at hw' ⊢
          by_cases hww : w' = w
          · subst hww
            rw [List.getElem?_set_self hwlt] at hw'
            simp at hw'
          · rw [List.getElem?_set_ne (by omega)] at hw'
            exact hfin ⟨w', hw'⟩

theorem runnerInv_run {T R : Type} (items : List T) (limit : Nat)
    (mapper : T → Nat → R) (sched : List RunnerAct) :
    RunnerInv items.length (min limit items.length)
      (fun i => (items[i]?).map (fun x => mapper x i))
      (mapWithConcurrency items limit mapper sched) := by
  suffices h : ∀ (sch : List RunnerAct) (s : RunnerState R),
      RunnerInv items.length (min limit items.length)
        (fun i => (items[i]?).map (fun x => mapper x i)) s →
      RunnerInv items.length (min limit items.length)
        (fun i => (items[i]?).map (fun x => mapper x i))
        (sch.foldl (runnerStep items.length
          (fun i => (items[i]?).map (fun x => mapper x i))) s) by
    exact h sched _ (runnerInv_init items.length (min limit items.length) _)
  intro sch
  induction sch with
  | nil => intro s hs; exact hs
  | cons a rest ih =>
    intro s hs
    rw [List.foldl_cons]
    exact ih _ (runnerInv_step items.length (min limit items.length) _ s a hs)

/-- C3 (confirmed): under every schedule the runner keeps exactly
`N = items.length` result slots, never has more than `min(L, N)` mapper
invocations outstanding, and — for `L ≥ 1` — once all workers have
finished, slot `i` holds exactly the mapper's result for input `i`,
regardless of completion order; for `N = 0` the machine is the empty
initial state under every schedule (no worker is ever started). -/
theorem c3_bounded_concurrency_runner {T R : Type} (items : List T) (limit : Nat)
    (mapper : T → Nat → R) (sched : List RunnerAct) :
    ((mapWithConcurrency items limit mapper sched).results.length = items.length)
    ∧ (outstanding (mapWithConcurrency items limit mapper sched) ≤ min limit items.length)
    ∧ (1 ≤ limit → allFinished (mapWithConcurrency items limit mapper sched) →
        ∀ i, i < items.length →
          (mapWithConcurrency items limit mapper sched).results[i]? =
            some ((items[i]?).map (fun x => mapper x i)))
    ∧ (items = [] →
        mapWithConcurrency items limit mapper sched = ⟨0, [], []⟩) := by
  obtain ⟨hrl, hwl, hwait, hres, hfin⟩ := runnerInv_run items limit mapper sched
  refine ⟨hrl, ?_, ?_, ?_⟩
  · calc outstanding (mapWithConcurrency items limit mapper sched)
        ≤ (mapWithConcurrency items limit mapper sched).workers.length :=
          List.countP_le_length _
      _ = min limit items.length := hwl
  · intro hlim hdone i hi
    have hW : 1 ≤ min limit items.length := by omega
    have hlen : 0 < (mapWithConcurrency items limit mapper sched).workers.length := by
      rw [hwl]; omega
    have hw0 : (mapWithConcurrency items limit mapper sched).workers[0]? =
        some .finished := by
      rw [List.getElem?_eq_getElem hlen]
      exact congrArg some (hdone _ (List.getElem_mem hlen))
    have hcur : items.length ≤ (mapWithConcurrency items limit mapper sched).cursor :=
      hfin ⟨0, hw0⟩
    rcases hres i hi (by omega) with hr | ⟨w', hw'⟩
    · exact hr
    · have hmem : WorkerStatus.waiting i ∈
          (mapWithConcurrency items limit mapper sched).workers :=
        List.getElem?_mem hw'
      have := hdone _ hmem
      cases this
  · intro hnil
    subst hnil
    show sched.foldl (runnerStep 0
        (fun i => ((([] : List T))[i]?).map (fun x => mapper x i)))
      (runnerInit R 0 (min limit 0)) = ⟨0, [], []⟩
    have hstuck : ∀ (sch : List RunnerAct) (s : RunnerState R), s.workers = [] →
        sch.foldl (runnerStep 0
          (fun i => ((([] : List T))[i]?).map (fun x => mapper x i))) s = s := by
      intro sch
      induction sch with
      | nil => intro s _; rfl
      | cons a rest ih =>
        intro s hs
        have hstep : runnerStep 0
            (fun i => ((([] : List T))[i]?).map (fun x => mapper x i)) s a = s := by
          cases a with
          | claim w => simp [runnerStep, hs]
          | complete w => simp [runnerStep, hs]
        rw [List.foldl_cons, hstep]
        exact ih s hs
    rw [hstuck sched _ (by simp [runnerInit])]
    simp [runnerInit]

/-- C3 witness: two items under limit 3 with an out-of-order completion
schedule still land in order. -/
theorem c3_witness :
    (mapWithConcurrency [10, 20] 3 (fun x i => x + i)
      [.claim 0, .claim 1, .complete 1, .complete 0, .claim 0, .claim 1]).results[0]? =
      some (some 10)
    ∧ (mapWithConcurrency [10, 20] 3 (fun x i => x + i)
        [.claim 0, .claim 1, .complete 1, .complete 0, .claim 0, .claim 1]).results[1]? =
      some (some 21) := by
  have h := c3_bounded_concurrency_runner [10, 20] 3 (fun x i => x + i)
    [.claim 0, .claim 1, .complete 1, .complete 0, .claim 0, .claim 1]
  have h0 := h.2.2.1 (by omega) (by decide) 0 (by decide)
  have h1 := h.2.2.1 (by omega) (by decide) 1 (by decide)
  constructor
  · rw [h0]; rfl
  · rw [h1]; rfl

end RapportBuilder
